import Mathlib

/-!
# m_callerid: user mode +g and the ACCEPT list

A shallow embedding of `src/modules/m_callerid.cpp`.

* A `User*` is the address of the user object (`UserPtr`); two users are the
  same user exactly when their addresses are equal.
* `std::set<User*>` is a `Finset UserPtr`: `find` is membership, `insert`
  reports whether the element was new, `erase` removes it, `size` is `card`.
* The objects the module reads and writes are gathered in `World`: the fields
  of every user object, the client list, and the `"callerid_data"` extension
  attached to each user object.
* `time_t` is a signed integer of `tbits` bits (32 or 64 on the usual
  platforms): its values are the `Int` from `-2^(tbits-1)` to `2^(tbits-1) - 1`,
  and the cast and the sum of line 260 wrap around as the compiled
  two's-complement arithmetic does (`wrapTime`, `timeSum`).  `time(NULL)` is
  the argument `now`.
* Every `WriteNumeric` call is recorded as a `Numeric` (who it is written to,
  the numeric, the format and its arguments), in call order.
* A function that dereferences a pointer obtained from `GetData` returns
  `Option`; `none` stands for the dereference of `NULL`.
* `Handle` is the fold of its loop body over the sub-tokens of the parameters.
  The tokenizer `irc::commasepstream` and the lookup `FindNick` belong to the
  core: the first cuts at commas, the second finds the client with the given
  nick.
-/

namespace CallerID

/-- The address of a user object (`User*`). -/
abbrev UserPtr := Nat

/-- The fields of a `User` object that the module reads. -/
structure User where
  nick : String
  ident : String
  dhost : String
  /-- The user modes that are set: `IsModeSet(c)`. -/
  modes : Char → Bool
  /-- Whether `IS_OPER(user)` holds. -/
  oper : Bool
  /-- Whether `IS_LOCAL(user)` holds. -/
  is_local : Bool

/-- `User::IsModeSet`. -/
def User.IsModeSet (u : User) (c : Char) : Bool := u.modes c

/-- `class callerid_data` (lines 10-17). -/
structure callerid_data where
  lastnotify : Int
  accepting : Finset UserPtr
deriving DecidableEq

/-- The constructor `callerid_data() : lastnotify(0) { }`, with an empty set. -/
def callerid_data.fresh : callerid_data := { lastnotify := 0, accepting := ∅ }

/-- One call `target->WriteNumeric(numeric, fmt, args...)`. -/
structure Numeric where
  target : UserPtr
  numeric : Nat
  fmt : String
  args : List String
deriving DecidableEq

/-- The configuration variables of `ModuleCallerID` (lines 194-198). -/
structure Config where
  /-- Maximum ACCEPT entries (`unsigned int`). -/
  maxaccepts : Nat
  /-- Operators can override callerid. -/
  operoverride : Bool
  /-- Allow ACCEPT entries to update with nick changes. -/
  tracknick : Bool
  /-- Seconds between notifications (`unsigned int`). -/
  notify_cooldown : Nat

/-- The objects the module works on. -/
structure World where
  /-- The fields of the user object at each address. -/
  users : UserPtr → User
  /-- The values of `ServerInstance->Users->clientlist`, in iteration order. -/
  clientlist : List UserPtr
  /-- The `"callerid_data"` extension item of each user object, if any. -/
  ext : UserPtr → Option callerid_data

/-- Modelled from the spec: `Extensible::GetExt("callerid_data", dat)` is declared in
the core headers, outside this module.  "At most one AcceptListStore per User at any
time": the lookup yields the record attached to `who`, and `NULL` when there is none. -/
def GetExt (s : World) (who : UserPtr) : Option callerid_data := s.ext who

/-- Modelled from the spec: `Extensible::Extend("callerid_data", dat)` is declared in
the core headers, outside this module.  It attaches the record `dat` to `who`
("created on first access"). -/
def Extend (s : World) (who : UserPtr) (dat : callerid_data) : World :=
  { s with ext := Function.update s.ext who (some dat) }

/-- Modelled from the spec: `Extensible::Shrink("callerid_data")` is declared in the
core headers, outside this module.  "`remove(user)` deletes and releases the store":
afterwards `who` has no record. -/
def Shrink (s : World) (who : UserPtr) : World :=
  { s with ext := Function.update s.ext who none }

/-- A write through the pointer returned by `GetData(who, _)`: the record attached to
`who` becomes `dat`. -/
def WriteData (s : World) (who : UserPtr) (dat : callerid_data) : World :=
  { s with ext := Function.update s.ext who (some dat) }

/-- `GetData` (lines 19-35): the record of `who`; when there is none, a fresh one is
attached if `extend`, and `NULL` is returned otherwise. -/
def GetData (s : World) (who : UserPtr) (extend : Bool) : World × Option callerid_data :=
  match GetExt s who with
  | some dat => (s, some dat)
  | none =>
    if extend then
      (Extend s who callerid_data.fresh, some callerid_data.fresh)
    else
      (s, none)

/-- `RemoveData` (lines 37-47). -/
def RemoveData (s : World) (who : UserPtr) : World :=
  match GetExt s who with
  | none => s
  | some _ => Shrink s who

/-- The body of the loop of `RemoveFromAllAccepts` (lines 53-64) for the client `i`. -/
def RemoveFromAllAccepts.body (who : UserPtr) (s : World) (i : UserPtr) : World :=
  match GetData s i false with
  | (s1, none) => s1
  | (s1, some dat) =>
    if who ∈ dat.accepting then
      WriteData s1 i { dat with accepting := dat.accepting.erase who }
    else
      s1

/-- `RemoveFromAllAccepts` (lines 49-66): one pass over the client list. -/
def RemoveFromAllAccepts (s : World) (who : UserPtr) : World :=
  s.clientlist.foldl (RemoveFromAllAccepts.body who) s

/-- The reply of line 150: `user->WriteNumeric(456, ...)`. -/
def reply456 (cfg : Config) (s : World) (user : UserPtr) : Numeric :=
  ⟨user, 456, "%s :Accept list is full (limit is %d)",
    [(s.users user).nick, toString cfg.maxaccepts]⟩

/-- The reply of line 157: `user->WriteNumeric(457, ...)`. -/
def reply457 (s : World) (user whotoadd : UserPtr) : Numeric :=
  ⟨user, 457, "%s %s :is already on your accept list",
    [(s.users user).nick, (s.users whotoadd).nick]⟩

/-- The reply of lines 170 and 179: `user->WriteNumeric(458, ...)`. -/
def reply458 (s : World) (user whotoremove : UserPtr) : Numeric :=
  ⟨user, 458, "%s %s :is not on your accept list",
    [(s.users user).nick, (s.users whotoremove).nick]⟩

/-- The reply of line 259: `user->WriteNumeric(716, ...)`. -/
def reply716 (s : World) (user dest : UserPtr) : Numeric :=
  ⟨user, 716, "%s %s :is in +g mode (server-side ignore).",
    [(s.users user).nick, (s.users dest).nick]⟩

/-- The reply of line 262: `user->WriteNumeric(717, ...)`. -/
def reply717 (s : World) (user dest : UserPtr) : Numeric :=
  ⟨user, 717, "%s %s :has been informed that you messaged them.",
    [(s.users user).nick, (s.users dest).nick]⟩

/-- The reply of line 263: `dest->WriteNumeric(718, ...)`. -/
def reply718 (s : World) (user dest : UserPtr) : Numeric :=
  ⟨dest, 718, "%s %s %s@%s :is messaging you, and you have umode +g",
    [(s.users dest).nick, (s.users user).nick, (s.users user).ident,
     (s.users user).dhost]⟩

/-- `CommandAccept::AddAccept` (lines 143-162).  The result is the return value, the
world afterwards and the numerics written. -/
def AddAccept (cfg : Config) (s : World) (user whotoadd : UserPtr) (quiet : Bool) :
    Option (Bool × World × List Numeric) :=
  match GetData s user true with
  | (_, none) => none
  | (s1, some dat) =>
    if dat.accepting.card ≥ cfg.maxaccepts then
      some (false, s1, if !quiet then [reply456 cfg s1 user] else [])
    else if whotoadd ∈ dat.accepting then
      -- `accepting.insert(whotoadd).second` is false and the set is as before
      some (false, s1, if !quiet then [reply457 s1 user whotoadd] else [])
    else
      some (true, WriteData s1 user { dat with accepting := insert whotoadd dat.accepting }, [])

/-- `CommandAccept::RemoveAccept` (lines 164-185).  The result is the return value, the
world afterwards and the numerics written. -/
def RemoveAccept (s : World) (user whotoremove : UserPtr) (quiet : Bool) :
    Bool × World × List Numeric :=
  match GetData s user false with
  | (s1, none) =>
    (false, s1, if !quiet then [reply458 s1 user whotoremove] else [])
  | (s1, some dat) =>
    if whotoremove ∉ dat.accepting then
      (false, s1, if !quiet then [reply458 s1 user whotoremove] else [])
    else
      (true, WriteData s1 user { dat with accepting := dat.accepting.erase whotoremove }, [])

/-- Half the number of values of a `time_t` of `tbits` bits: `2^(tbits-1)`. -/
def timeHalf (tbits : Nat) : Int := ((2 ^ tbits / 2 : Nat) : Int)

/-- The `time_t` of `tbits` bits that an integer becomes when it is stored in one:
the two's-complement value with the same low `tbits` bits. -/
def wrapTime (tbits : Nat) (x : Int) : Int :=
  (x + timeHalf tbits) % ((2 ^ tbits : Nat) : Int) - timeHalf tbits

/-- The integer `x` is a value of a `time_t` of `tbits` bits. -/
abbrev fitsTime (tbits : Nat) (x : Int) : Prop :=
  -timeHalf tbits ≤ x ∧ x < timeHalf tbits

/-- The value of `lastnotify + (time_t)notify_cooldown` (line 260): the `unsigned int`
is cast to `time_t` and the sum is taken in `time_t`. -/
def timeSum (tbits : Nat) (lastnotify : Int) (notify_cooldown : Nat) : Int :=
  wrapTime tbits (lastnotify + wrapTime tbits (notify_cooldown : Int))

/-- `ModuleCallerID::PreText` (lines 242-269); `tbits` is the width of `time_t` and
`now` the value of `time(NULL)`.  The result is the return value, the world afterwards
and the numerics written. -/
def PreText (tbits : Nat) (cfg : Config) (now : Int) (s : World) (user dest : UserPtr) :
    Option (Int × World × List Numeric) :=
  if !(s.users dest).IsModeSet 'g' then
    some (0, s, [])
  else if cfg.operoverride && (s.users user).oper then
    some (0, s, [])
  else
    match GetData s dest true with
    | (_, none) => none
    | (s1, some dat) =>
      -- line 253: the key looked up is `dest`
      if dest ∉ dat.accepting then
        if now > timeSum tbits dat.lastnotify cfg.notify_cooldown then
          some (1, WriteData s1 dest { dat with lastnotify := now },
            [reply716 s1 user dest, reply717 s1 user dest, reply718 s1 user dest])
        else
          some (1, s1, [reply716 s1 user dest])
      else
        some (0, s1, [])

/-- `ModuleCallerID::OnUserPreNick` (lines 297-302). -/
def OnUserPreNick (cfg : Config) (s : World) (user : UserPtr) (_newnick : String) :
    Int × World :=
  if !cfg.tracknick then
    (0, RemoveFromAllAccepts s user)
  else
    (0, s)

/-- `ModuleCallerID::OnUserQuit` (lines 304-308). -/
def OnUserQuit (s : World) (user : UserPtr) : World :=
  RemoveFromAllAccepts (RemoveData s user) user

/-- `CmdResult`, the result of a command handler. -/
inductive CmdResult where
  | CMD_SUCCESS
  | CMD_FAILURE
deriving DecidableEq

/-- The cut of `src` at every comma; `cur` holds the characters of the current
sub-token, last one first. -/
def commasepstream.cut : List Char → List Char → List (List Char)
  | cur, [] => [cur.reverse]
  | cur, c :: cs =>
    if c = ',' then cur.reverse :: commasepstream.cut [] cs
    else commasepstream.cut (c :: cur) cs

/-- Modelled from the spec: `irc::commasepstream` and its `GetToken` are declared in
the core headers, outside this module.  "Arguments are free-form tokens, each
independently comma-separated into sub-tokens": the sub-tokens of `arg` in order, the
empty ones included (`Handle` skips them). -/
def commasepstream (arg : String) : List String :=
  (commasepstream.cut [] arg.data).map String.mk

/-- Modelled from the spec: `InspIRCd::FindNick` is declared in the core headers,
outside this module.  "`resolveUserByName(name) -> User | not-found`", resolving "a
target user by current display name": the first client whose nick is `nick`. -/
def FindNick (s : World) (nick : String) : Option UserPtr :=
  s.clientlist.find? fun u => decide ((s.users u).nick = nick)

/-- The reply of line 125: `user->WriteNumeric(401, ...)`. -/
def reply401 (s : World) (user : UserPtr) (tok : String) : Numeric :=
  ⟨user, 401, "%s %s :No such nick/channel", [(s.users user).nick, tok]⟩

/-- The reply of line 138: `user->WriteNumeric(281, ...)` for the entry `i`. -/
def reply281 (s : World) (user i : UserPtr) : Numeric :=
  ⟨user, 281, "%s %s", [(s.users user).nick, (s.users i).nick]⟩

/-- The reply of line 140: `user->WriteNumeric(282, ...)`. -/
def reply282 (s : World) (user : UserPtr) : Numeric :=
  ⟨user, 282, "%s :End of ACCEPT list", [(s.users user).nick]⟩

/-- `CommandAccept::ListAccept` (lines 132-141).  A `std::set<User*>` is iterated in
ascending order of the addresses.  The result is the world afterwards and the
numerics written. -/
def ListAccept (s : World) (user : UserPtr) : World × List Numeric :=
  match GetData s user false with
  | (s1, some dat) =>
    (s1, (dat.accepting.sort (· ≤ ·)).map (reply281 s1 user) ++ [reply282 s1 user])
  | (s1, none) => (s1, [reply282 s1 user])

/-- The body of the `while` loop of `CommandAccept::Handle` (lines 103-126) for the
sub-token `tok`.  The state is `atleastonechange`, the world and the numerics written
so far. -/
def Handle.body (cfg : Config) (user : UserPtr) (st : Bool × World × List Numeric)
    (tok : String) : Option (Bool × World × List Numeric) :=
  match st with
  | (atleastonechange, s, out) =>
    match tok.data with
    | [] => some (atleastonechange, s, out)
    | c :: rest =>
      if tok = "*" then
        if (s.users user).is_local then
          some (atleastonechange, s, out)
        else
          match ListAccept s user with
          | (s1, o) => some (atleastonechange, s1, out ++ o)
      else if c = '-' then
        match FindNick s (String.mk rest) with
        | some whotoremove =>
          match RemoveAccept s user whotoremove false with
          | (r, s1, o) => some (r || atleastonechange, s1, out ++ o)
        | none => some (atleastonechange, s, out)
      else
        match FindNick s (if c = '+' then String.mk rest else tok) with
        | some whotoadd =>
          match AddAccept cfg s user whotoadd false with
          | some (r, s1, o) => some (r || atleastonechange, s1, out ++ o)
          | none => none
        | none => some (atleastonechange, s, out ++ [reply401 s user tok])

/-- `CommandAccept::Handle` (lines 90-130): the `for` loop over the parameters and,
for each, the `while` loop over its sub-tokens.  The result is the return value, the
world afterwards and the numerics written. -/
def Handle (cfg : Config) (s : World) (parameters : List String) (user : UserPtr) :
    Option (CmdResult × World × List Numeric) :=
  match parameters.foldlM
      (fun st arg => (commasepstream arg).foldlM (Handle.body cfg user) st)
      (false, s, []) with
  | some (atleastonechange, s1, out) =>
    some (if atleastonechange then CmdResult.CMD_FAILURE else CmdResult.CMD_SUCCESS, s1, out)
  | none => none

/-- `ModuleCallerID::OnCleanup` (lines 287-295).  The constant `TYPE_USER` is declared
in the core headers, outside this module, and is taken as an argument. -/
def OnCleanup (TYPE_USER : Int) (s : World) (type : Int) (item : UserPtr) : World :=
  if type ≠ TYPE_USER then s
  else RemoveData s item

/-- The accept set of `u`: the `accepting` member of its record, and the empty set when
it has no record. -/
def acceptSet (s : World) (u : UserPtr) : Finset UserPtr :=
  match s.ext u with
  | none => ∅
  | some dat => dat.accepting

/-- The numerics of a list of replies, each with the user it was written to. -/
def codes (l : List Numeric) : List (UserPtr × Nat) :=
  l.map fun r => (r.target, r.numeric)

/-- The `lastnotify` member of the record of `u`, if it has a record. -/
def lastnotifyOf (s : World) (u : UserPtr) : Option Int :=
  (s.ext u).map fun dat => dat.lastnotify

/-- The `lastnotify` of `u`: the member of its record, and 0, the value a record
starts with, when it has no record. -/
def lastnotifyVal (s : World) (u : UserPtr) : Int :=
  match s.ext u with
  | none => 0
  | some dat => dat.lastnotify

/-- The record `d` with `who` erased from its accept set. -/
def callerid_data.without (who : UserPtr) (d : callerid_data) : callerid_data :=
  { d with accepting := d.accepting.erase who }

/-- A user object without nick, ident or host; `g` says whether mode `g` is set. -/
def mkUser (g : Bool) (oper : Bool) : User :=
  { nick := "", ident := "", dhost := "", modes := fun c => c == 'g' && g,
    oper := oper, is_local := true }

/-- Users 1 and 2 have `+g` and are not operators; user 1 accepts user 2 only. -/
def worldAccepting : World :=
  { users := fun _ => mkUser true false,
    clientlist := [1, 2],
    ext := fun u => if u = 1 then some { lastnotify := 0, accepting := {2} } else none }

/-- Nobody has `+g` and nobody has a record. -/
def worldPlain : World :=
  { users := fun _ => mkUser false false,
    clientlist := [1, 2, 3, 4],
    ext := fun _ => none }

/-- Every user has `+g`; user 1 has a fresh record, nobody else has one. -/
def worldFresh : World :=
  { users := fun _ => mkUser true false,
    clientlist := [1, 2, 3],
    ext := fun u => if u = 1 then some callerid_data.fresh else none }

/-- The world `worldPlain` after user 1 has accepted user 2. -/
def worldOne : World :=
  { users := fun _ => mkUser false false,
    clientlist := [1, 2, 3, 4],
    ext := Function.update (Function.update (fun _ => none) 1 (some callerid_data.fresh))
      1 (some { lastnotify := 0, accepting := {2} }) }

/-- The world `worldAccepting` after user 1 has removed user 2 from its accept set. -/
def worldRemoved : World :=
  { users := fun _ => mkUser true false,
    clientlist := [1, 2],
    ext := Function.update worldAccepting.ext 1 (some { lastnotify := 0, accepting := ∅ }) }

/-- The world `worldFresh` after user 1 has been notified at clock 100. -/
def worldNotified : World :=
  { users := fun _ => mkUser true false,
    clientlist := [1, 2, 3],
    ext := Function.update worldFresh.ext 1 (some { lastnotify := 100, accepting := ∅ }) }

/-- What one sub-token does from the world `s`: the loop body of `Handle` run with
`atleastonechange` cleared and no numeric written yet. -/
def Handle.token (cfg : Config) (user : UserPtr) (s : World) (tok : String) :
    Option (Bool × World × List Numeric) :=
  Handle.body cfg user (false, s, []) tok

/-- Whether the sub-token `tok`, processed from `s`, sets `atleastonechange`. -/
def Handle.flag (cfg : Config) (user : UserPtr) (s : World) (tok : String) : Bool :=
  match Handle.token cfg user s tok with
  | some r => r.1
  | none => false

/-- The world after the sub-token `tok` has been processed from `s`. -/
def Handle.after (cfg : Config) (user : UserPtr) (s : World) (tok : String) : World :=
  match Handle.token cfg user s tok with
  | some r => r.2.1
  | none => s

/-- The numerics written while the sub-token `tok` is processed from `s`. -/
def Handle.replies (cfg : Config) (user : UserPtr) (s : World) (tok : String) :
    List Numeric :=
  match Handle.token cfg user s tok with
  | some r => r.2.2
  | none => []

/-- The sub-tokens of a parameter list, in the order `Handle` meets them. -/
def Handle.tokens (parameters : List String) : List String :=
  parameters.flatMap commasepstream

/-- The numerics written while the sub-tokens `toks` are processed in turn from `s`. -/
def Handle.repliesAll (cfg : Config) (user : UserPtr) : World → List String → List Numeric
  | _, [] => []
  | s, tok :: toks =>
    Handle.replies cfg user s tok ++ Handle.repliesAll cfg user (Handle.after cfg user s tok) toks

/-- Whether `P` holds of some sub-token of `toks`, each looked at in the world in
which `Handle` meets it. -/
def anyToken (P : World → String → Bool) (cfg : Config) (user : UserPtr) :
    World → List String → Bool
  | _, [] => false
  | s, tok :: toks => P s tok || anyToken P cfg user (Handle.after cfg user s tok) toks

/-- The kinds of sub-token, in the words of the description of the command: "an empty
sub-token is ignored", "`*` triggers a list action", "prefixed `-` is a removal",
"prefixed `+` or unprefixed is an addition"; `nick` is the name to resolve. -/
inductive TokKind where
  | empty
  | list
  | remove (nick : String)
  | add (nick : String)
deriving DecidableEq

/-- The kind of the sub-token `tok`. -/
def classify (tok : String) : TokKind :=
  match tok.data with
  | [] => TokKind.empty
  | c :: rest =>
    if tok = "*" then TokKind.list
    else if c = '-' then TokKind.remove (String.mk rest)
    else if c = '+' then TokKind.add (String.mk rest)
    else TokKind.add tok

/-- An addition sub-token succeeds, in the words of the description: the target
resolves, the list is not "at capacity" and the target is not "already present". -/
def additionSucceeds (cfg : Config) (user : UserPtr) (s : World) (tok : String) : Bool :=
  match classify tok with
  | TokKind.add nick =>
    match FindNick s nick with
    | some t =>
      decide ((acceptSet s user).card < cfg.maxaccepts) && decide (t ∉ acceptSet s user)
    | none => false
  | _ => false

/-- A removal sub-token succeeds, in the words of the description: the target
resolves and is present in the invoker's store. -/
def removalSucceeds (user : UserPtr) (s : World) (tok : String) : Bool :=
  match classify tok with
  | TokKind.remove nick =>
    match FindNick s nick with
    | some t => decide (t ∈ acceptSet s user)
    | none => false
  | _ => false

/-- A sub-token fails to apply: it is an addition or a removal and does not succeed
(target not found, list full, already present, or not present on removal). -/
def tokenFails (cfg : Config) (user : UserPtr) (s : World) (tok : String) : Bool :=
  match classify tok with
  | TokKind.add _ => !additionSucceeds cfg user s tok
  | TokKind.remove _ => !removalSucceeds user s tok
  | _ => false

/-- A sub-token changes the accept set of the invoker: the set after it has been
processed differs from the set before. -/
def changesSet (cfg : Config) (user : UserPtr) (s : World) (tok : String) : Bool :=
  decide (acceptSet (Handle.after cfg user s tok) user ≠ acceptSet s user)

/-- What the ACCEPT command does for one sub-token, told by the kind of the
sub-token: nothing for an empty one; for `*` the list, which line 108 gives to the
invoker that is not local; for a removal `RemoveAccept` on the resolved target, and
nothing when the nick does not resolve; for an addition `AddAccept` on the resolved
target, and the reply 401 when the nick does not resolve.  The result is the world
afterwards and the numerics written. -/
def tokenAct (cfg : Config) (user : UserPtr) (s : World) (tok : String) :
    World × List Numeric :=
  match classify tok with
  | TokKind.empty => (s, [])
  | TokKind.list => if (s.users user).is_local then (s, []) else ListAccept s user
  | TokKind.remove nick =>
    match FindNick s nick with
    | some t => ((RemoveAccept s user t false).2.1, (RemoveAccept s user t false).2.2)
    | none => (s, [])
  | TokKind.add nick =>
    match FindNick s nick with
    | some t =>
      match AddAccept cfg s user t false with
      | some r => (r.2.1, r.2.2)
      | none => (s, [])
    | none => (s, [reply401 s user tok])

/-- Every sub-token of `toks` acted on in turn by `act`, whatever the outcome of the
ones before it: the world at the end and all the numerics written, in order. -/
def processAll (act : World → String → World × List Numeric) :
    World → List String → World × List Numeric
  | s, [] => (s, [])
  | s, tok :: toks =>
    ((processAll act (act s tok).1 toks).1,
      (act s tok).2 ++ (processAll act (act s tok).1 toks).2)

/-- One call into the module: `Handle`, `PreText`, `OnUserPreNick`, `OnUserQuit` or
`OnCleanup`, with its arguments. -/
inductive Call where
  | handle (parameters : List String) (user : UserPtr)
  | preText (now : Int) (user dest : UserPtr)
  | preNick (user : UserPtr) (newnick : String)
  | quit (user : UserPtr)
  | cleanup (type : Int) (item : UserPtr)

/-- The world after one call. -/
def Call.apply (tbits : Nat) (cfg : Config) (TYPE_USER : Int) (s : World) :
    Call → Option World
  | Call.handle parameters user => (Handle cfg s parameters user).map fun r => r.2.1
  | Call.preText now user dest => (PreText tbits cfg now s user dest).map fun r => r.2.1
  | Call.preNick user newnick => some (OnUserPreNick cfg s user newnick).2
  | Call.quit user => some (OnUserQuit s user)
  | Call.cleanup type item => some (OnCleanup TYPE_USER s type item)

/-- The world after a sequence of calls. -/
def runCalls (tbits : Nat) (cfg : Config) (TYPE_USER : Int) (s : World)
    (calls : List Call) : Option World :=
  calls.foldlM (Call.apply tbits cfg TYPE_USER) s

/-- The events in the life of the users: a user connects at a free address, a
connected user runs the ACCEPT command, a connected user sends a message to a
connected user, a connected user changes nick, a connected user disconnects. -/
inductive Event where
  | connect (u : UserPtr) (info : User)
  | accept (user : UserPtr) (parameters : List String)
  | message (now : Int) (user dest : UserPtr)
  | rename (user : UserPtr) (newnick : String)
  | disconnect (user : UserPtr)

/-- The world after one event; an event that cannot take place (the address is taken,
the user is not connected) leaves the world as it is.  A connect puts the user on
the client list and touches no record; a rename runs `OnUserPreNick` and then changes
the nick; a disconnect runs `OnUserQuit` and then takes the user off the client
list. -/
def Event.apply (tbits : Nat) (cfg : Config) (s : World) : Event → World
  | Event.connect u info =>
    if u ∈ s.clientlist then s
    else
      { users := Function.update s.users u info,
        clientlist := u :: s.clientlist,
        ext := s.ext }
  | Event.accept user parameters =>
    if user ∈ s.clientlist then
      match Handle cfg s parameters user with
      | some r => r.2.1
      | none => s
    else s
  | Event.message now user dest =>
    if user ∈ s.clientlist ∧ dest ∈ s.clientlist then
      match PreText tbits cfg now s user dest with
      | some r => r.2.1
      | none => s
    else s
  | Event.rename user newnick =>
    if user ∈ s.clientlist then
      match OnUserPreNick cfg s user newnick with
      | (_, s1) =>
        { s1 with users := Function.update s1.users user { s1.users user with nick := newnick } }
    else s
  | Event.disconnect user =>
    if user ∈ s.clientlist then
      match OnUserQuit s user with
      | s1 => { s1 with clientlist := s1.clientlist.filter fun u => decide (u ≠ user) }
    else s

/-- The world after a sequence of events. -/
def runEvents (tbits : Nat) (cfg : Config) (s : World) (events : List Event) : World :=
  events.foldl (Event.apply tbits cfg) s

/-- No dangling reference: every user with a record is a client, and every member of
an accept set is a client. -/
def NoDangling (s : World) : Prop :=
  (∀ u, s.ext u ≠ none → u ∈ s.clientlist) ∧
  (∀ u x, x ∈ acceptSet s u → x ∈ s.clientlist)

/-- The nicks of the users 1, 2 and 3; every other user is called `zed`. -/
def nickOf (u : UserPtr) : String :=
  if u = 1 then "alice" else if u = 2 then "bob" else if u = 3 then "carol" else "zed"

/-- The clients 1 (`alice`), 2 (`bob`) and 3 (`carol`), none with a record; `loc` says
whether they are local. -/
def worldNamed (loc : Bool) : World :=
  { users := fun u =>
      { nick := nickOf u, ident := "", dhost := "", modes := fun _ => false,
        oper := false, is_local := loc },
    clientlist := [1, 2, 3],
    ext := fun _ => none }

/-- The world `worldNamed loc` where `alice` accepts `bob`. -/
def worldNamedAccepting (loc : Bool) : World :=
  { worldNamed loc with
    ext := fun u => if u = 1 then some { lastnotify := 0, accepting := {2} } else none }

/-- A local user called `dave`, with no mode set. -/
def userDave : User :=
  { nick := "dave", ident := "", dhost := "", modes := fun _ => false, oper := false,
    is_local := true }

/-! ## Lemmas on the record store -/

theorem GetData_noextend (s : World) (who : UserPtr) :
    GetData s who false = (s, s.ext who) := by
  unfold GetData GetExt
  cases h : s.ext who <;> simp

theorem GetData_extend_some (s : World) (who : UserPtr) (d : callerid_data)
    (h : s.ext who = some d) : GetData s who true = (s, some d) := by
  simp [GetData, GetExt, h]

theorem GetData_extend_none (s : World) (who : UserPtr) (h : s.ext who = none) :
    GetData s who true
      = (Extend s who callerid_data.fresh, some callerid_data.fresh) := by
  simp [GetData, GetExt, h]

theorem without_without (who : UserPtr) (d : callerid_data) :
    (d.without who).without who = d.without who := by
  simp [callerid_data.without]

theorem without_of_not_mem (who : UserPtr) (d : callerid_data) (h : who ∉ d.accepting) :
    d.without who = d := by
  cases d
  simp_all [callerid_data.without]

theorem body_ext (who : UserPtr) (s : World) (i u : UserPtr) :
    (RemoveFromAllAccepts.body who s i).ext u
      = if u = i then (s.ext i).map (callerid_data.without who) else s.ext u := by
  unfold RemoveFromAllAccepts.body
  rw [GetData_noextend]
  cases h : s.ext i with
  | none => by_cases hu : u = i <;> simp [hu, h]
  | some d =>
    by_cases hm : who ∈ d.accepting
    · by_cases hu : u = i <;> simp [hm, hu, WriteData, callerid_data.without, Function.update]
    · by_cases hu : u = i <;> simp [hm, hu, h, without_of_not_mem]

theorem body_clientlist (who : UserPtr) (s : World) (i : UserPtr) :
    (RemoveFromAllAccepts.body who s i).clientlist = s.clientlist := by
  unfold RemoveFromAllAccepts.body
  rw [GetData_noextend]
  cases h : s.ext i with
  | none => rfl
  | some d => by_cases hm : who ∈ d.accepting <;> simp [hm, WriteData]

theorem fold_body_ext (who : UserPtr) (l : List UserPtr) (s : World) (u : UserPtr) :
    (l.foldl (RemoveFromAllAccepts.body who) s).ext u
      = if u ∈ l then (s.ext u).map (callerid_data.without who) else s.ext u := by
  induction l generalizing s with
  | nil => simp
  | cons i l ih =>
    rw [List.foldl_cons, ih, body_ext]
    by_cases hu : u = i
    · subst hu
      by_cases hl : u ∈ l
      · cases h : s.ext u <;> simp [hl, without_without]
      · simp [hl]
    · simp [hu]

theorem fold_body_clientlist (who : UserPtr) (l : List UserPtr) (s : World) :
    (l.foldl (RemoveFromAllAccepts.body who) s).clientlist = s.clientlist := by
  induction l generalizing s with
  | nil => rfl
  | cons i l ih => rw [List.foldl_cons, ih, body_clientlist]

theorem RemoveFromAllAccepts_ext (s : World) (who u : UserPtr) :
    (RemoveFromAllAccepts s who).ext u
      = if u ∈ s.clientlist then (s.ext u).map (callerid_data.without who) else s.ext u :=
  fold_body_ext who s.clientlist s u

theorem RemoveFromAllAccepts_clientlist (s : World) (who : UserPtr) :
    (RemoveFromAllAccepts s who).clientlist = s.clientlist :=
  fold_body_clientlist who s.clientlist s

theorem RemoveFromAllAccepts_acceptSet (s : World) (who u : UserPtr) :
    acceptSet (RemoveFromAllAccepts s who) u
      = if u ∈ s.clientlist then (acceptSet s u).erase who else acceptSet s u := by
  unfold acceptSet
  rw [RemoveFromAllAccepts_ext]
  by_cases hu : u ∈ s.clientlist
  · cases h : s.ext u <;> simp [hu, callerid_data.without]
  · simp [hu]

theorem RemoveData_ext (s : World) (who u : UserPtr) :
    (RemoveData s who).ext u = if u = who then none else s.ext u := by
  unfold RemoveData GetExt
  cases h : s.ext who with
  | none => by_cases hu : u = who <;> simp [hu, h]
  | some d => by_cases hu : u = who <;> simp [hu, Shrink, Function.update]

theorem RemoveData_clientlist (s : World) (who : UserPtr) :
    (RemoveData s who).clientlist = s.clientlist := by
  unfold RemoveData GetExt
  cases h : s.ext who <;> simp [Shrink]

/-! ## Lemmas on `AddAccept` and `RemoveAccept` -/

theorem AddAccept_of_full (cfg : Config) (s : World) (user whotoadd : UserPtr)
    (quiet : Bool) (hfull : (acceptSet s user).card ≥ cfg.maxaccepts) :
    ∃ s1 out, AddAccept cfg s user whotoadd quiet = some (false, s1, out) ∧
      codes out = (if quiet then [] else [(user, 456)]) ∧
      (∀ u, acceptSet s1 u = acceptSet s u) := by
  unfold acceptSet at hfull
  cases h : s.ext user with
  | none =>
    rw [h] at hfull
    have h0 : cfg.maxaccepts ≤ (∅ : Finset UserPtr).card := hfull
    simp only [AddAccept, GetData, GetExt, h, callerid_data.fresh, ite_true]
    rw [if_pos h0]
    refine ⟨_, _, rfl, ?_, ?_⟩
    · cases quiet <;> simp [codes, reply456]
    · intro u
      by_cases hu : u = user
      · subst hu
        simp [acceptSet, Extend, h]
      · simp [acceptSet, Extend, Function.update, hu]
  | some d =>
    rw [h] at hfull
    simp only [AddAccept, GetData, GetExt, h]
    rw [if_pos hfull]
    refine ⟨_, _, rfl, ?_, fun _ => rfl⟩
    cases quiet <;> simp [codes, reply456]

theorem AddAccept_of_room (cfg : Config) (s : World) (user whotoadd : UserPtr)
    (quiet : Bool) (hroom : (acceptSet s user).card < cfg.maxaccepts)
    (hnew : whotoadd ∉ acceptSet s user) :
    ∃ s1, AddAccept cfg s user whotoadd quiet = some (true, s1, []) ∧
      acceptSet s1 user = insert whotoadd (acceptSet s user) ∧
      (∀ u, u ≠ user → s1.ext u = s.ext u) := by
  unfold acceptSet at hroom hnew
  cases h : s.ext user with
  | none =>
    rw [h] at hroom
    have hr : ¬ cfg.maxaccepts ≤ (∅ : Finset UserPtr).card := Nat.not_le.mpr hroom
    simp only [AddAccept, GetData, GetExt, h, callerid_data.fresh, ite_true]
    rw [if_neg hr, if_neg (Finset.not_mem_empty _)]
    refine ⟨_, rfl, ?_, ?_⟩
    · simp [acceptSet, WriteData, h]
    · intro u hu
      simp [WriteData, Extend, Function.update, hu]
  | some d =>
    rw [h] at hroom hnew
    have hr : ¬ cfg.maxaccepts ≤ d.accepting.card := Nat.not_le.mpr hroom
    simp only [AddAccept, GetData, GetExt, h]
    rw [if_neg hr, if_neg hnew]
    refine ⟨_, rfl, ?_, ?_⟩
    · simp [acceptSet, WriteData, h]
    · intro u hu
      simp [WriteData, Function.update, hu]

theorem AddAccept_true (cfg : Config) (s s1 : World) (user whotoadd : UserPtr)
    (quiet : Bool) (out : List Numeric)
    (h : AddAccept cfg s user whotoadd quiet = some (true, s1, out)) :
    (acceptSet s user).card < cfg.maxaccepts ∧ whotoadd ∉ acceptSet s user ∧
    acceptSet s1 user = insert whotoadd (acceptSet s user) ∧ out = [] ∧
    ∃ d, s1.ext user = some d := by
  by_cases hfull : (acceptSet s user).card ≥ cfg.maxaccepts
  · obtain ⟨s2, o2, h2, -⟩ := AddAccept_of_full cfg s user whotoadd quiet hfull
    rw [h2] at h
    simp at h
  · have hroom : (acceptSet s user).card < cfg.maxaccepts := Nat.not_le.mp hfull
    by_cases hmem : whotoadd ∈ acceptSet s user
    · exfalso
      unfold acceptSet at hmem hroom
      cases hx : s.ext user with
      | none => simp [hx] at hmem
      | some d =>
        rw [hx] at hmem hroom
        have hr : ¬ cfg.maxaccepts ≤ d.accepting.card := Nat.not_le.mpr hroom
        simp [AddAccept, GetData, GetExt, hx, hr, hmem] at h
    · obtain ⟨s2, h2, hs2, -⟩ := AddAccept_of_room cfg s user whotoadd quiet hroom hmem
      rw [h2] at h
      simp only [Option.some.injEq, Prod.mk.injEq, true_and] at h
      obtain ⟨hs, ho⟩ := h
      subst hs
      refine ⟨hroom, hmem, hs2, ho.symm, ?_⟩
      unfold acceptSet at hs2
      cases hx : s2.ext user with
      | none =>
        rw [hx] at hs2
        exact absurd hs2.symm (Finset.insert_ne_empty _ _)
      | some d => exact ⟨d, rfl⟩

theorem RemoveAccept_of_mem (s : World) (user whotoremove : UserPtr) (quiet : Bool)
    (hmem : whotoremove ∈ acceptSet s user) :
    ∃ s1, RemoveAccept s user whotoremove quiet = (true, s1, []) ∧
      acceptSet s1 user = (acceptSet s user).erase whotoremove ∧
      (∀ u, u ≠ user → s1.ext u = s.ext u) := by
  unfold acceptSet at hmem
  cases h : s.ext user with
  | none => simp [h] at hmem
  | some d =>
    rw [h] at hmem
    simp only [RemoveAccept, GetData_noextend, h]
    rw [if_neg (not_not.mpr hmem)]
    refine ⟨_, rfl, ?_, ?_⟩
    · simp [acceptSet, WriteData, h]
    · intro u hu
      simp [WriteData, Function.update, hu]

theorem RemoveAccept_true (s s1 : World) (user whotoremove : UserPtr) (quiet : Bool)
    (out : List Numeric) (h : RemoveAccept s user whotoremove quiet = (true, s1, out)) :
    whotoremove ∈ acceptSet s user ∧
    acceptSet s1 user = (acceptSet s user).erase whotoremove ∧ out = [] := by
  by_cases hmem : whotoremove ∈ acceptSet s user
  · obtain ⟨s2, h2, hs2, -⟩ := RemoveAccept_of_mem s user whotoremove quiet hmem
    rw [h2] at h
    simp only [Prod.mk.injEq, true_and] at h
    obtain ⟨hs, ho⟩ := h
    subst hs
    exact ⟨hmem, hs2, ho.symm⟩
  · exfalso
    unfold acceptSet at hmem
    cases hx : s.ext user with
    | none => simp [RemoveAccept, GetData_noextend, hx] at h
    | some d =>
      rw [hx] at hmem
      simp [RemoveAccept, GetData_noextend, hx, hmem] at h

/-! ## Lemmas on the arithmetic of `time_t` -/

theorem wrapTime_add_wrapTime (tbits : Nat) (a b : Int) :
    wrapTime tbits (a + wrapTime tbits b) = wrapTime tbits (a + b) := by
  unfold wrapTime
  congr 1
  have : a + ((b + timeHalf tbits) % ((2 ^ tbits : Nat) : Int) - timeHalf tbits)
        + timeHalf tbits
      = a + (b + timeHalf tbits) % ((2 ^ tbits : Nat) : Int) := by ring
  rw [this, Int.add_emod, Int.emod_emod, ← Int.add_emod]
  congr 1
  ring

theorem wrapTime_of_fits (tbits : Nat) (x : Int) (h : fitsTime tbits x) :
    wrapTime tbits x = x := by
  unfold wrapTime
  obtain ⟨h1, h2⟩ := h
  have hm : (2 : Int) * timeHalf tbits ≤ ((2 ^ tbits : Nat) : Int) := by
    unfold timeHalf
    have := Nat.mul_div_le (2 ^ tbits) 2
    omega
  rw [Int.emod_eq_of_lt (by omega) (by omega)]
  ring

theorem timeSum_of_fits (tbits : Nat) (lastnotify : Int) (notify_cooldown : Nat)
    (h : fitsTime tbits (lastnotify + (notify_cooldown : Int))) :
    timeSum tbits lastnotify notify_cooldown = lastnotify + (notify_cooldown : Int) := by
  unfold timeSum
  rw [wrapTime_add_wrapTime, wrapTime_of_fits tbits _ h]

/-! ## Lemmas on `PreText` -/

theorem PreText_of_record (tbits : Nat) (cfg : Config) (now : Int) (s : World) (user dest : UserPtr)
    (d : callerid_data) (hg : (s.users dest).IsModeSet 'g' = true)
    (hov : (cfg.operoverride && (s.users user).oper) = false)
    (hd : s.ext dest = some d) (hself : dest ∉ d.accepting) :
    PreText tbits cfg now s user dest
      = if now > timeSum tbits d.lastnotify cfg.notify_cooldown then
          some (1, WriteData s dest { d with lastnotify := now },
            [reply716 s user dest, reply717 s user dest, reply718 s user dest])
        else
          some (1, s, [reply716 s user dest]) := by
  simp only [PreText, hg, hov, GetData, GetExt, hd]
  simp [hself]

theorem PreText_denied_inv (tbits : Nat) (cfg : Config) (now : Int) (s s1 : World) (user dest : UserPtr)
    (out : List Numeric) (h : PreText tbits cfg now s user dest = some (1, s1, out)) :
    (s.users dest).IsModeSet 'g' = true ∧
    (cfg.operoverride && (s.users user).oper) = false ∧
    s1.users = s.users ∧
    ∃ d1, s1.ext dest = some d1 ∧ dest ∉ d1.accepting ∧
      ((user, 717) ∈ codes out → d1.lastnotify = now) := by
  by_cases hg : (s.users dest).IsModeSet 'g' = true
  swap
  · simp [PreText, hg] at h
  by_cases hov : (cfg.operoverride && (s.users user).oper) = true
  · simp only [PreText, hg, hov] at h
    simp at h
  have hov2 : (cfg.operoverride && (s.users user).oper) = false := by simpa using hov
  refine ⟨hg, hov2, ?_⟩
  cases hx : s.ext dest with
  | none =>
    simp only [PreText, hg, hov2, GetData, GetExt, hx, callerid_data.fresh] at h
    simp only [Bool.not_true, Bool.false_eq_true, ite_false, ite_true,
      Finset.not_mem_empty, not_false_eq_true] at h
    by_cases ht : now > timeSum tbits 0 cfg.notify_cooldown
    · rw [if_pos ht] at h
      simp only [Option.some.injEq, Prod.mk.injEq, true_and] at h
      obtain ⟨hs, -⟩ := h
      subst hs
      exact ⟨rfl, { lastnotify := now, accepting := ∅ }, by simp [WriteData],
        Finset.not_mem_empty _, fun _ => rfl⟩
    · rw [if_neg ht] at h
      simp only [Option.some.injEq, Prod.mk.injEq, true_and] at h
      obtain ⟨hs, ho⟩ := h
      subst hs ho
      refine ⟨rfl, { lastnotify := 0, accepting := ∅ }, by simp [Extend],
        Finset.not_mem_empty _, ?_⟩
      intro hc
      simp [codes, reply716] at hc
  | some d =>
    simp only [PreText, hg, hov2, GetData, GetExt, hx] at h
    simp only [Bool.not_true, Bool.false_eq_true, ite_false] at h
    by_cases hself : dest ∈ d.accepting
    · simp [hself] at h
    · simp only [hself, not_false_eq_true, ite_true] at h
      by_cases ht : now > timeSum tbits d.lastnotify cfg.notify_cooldown
      · rw [if_pos ht] at h
        simp only [Option.some.injEq, Prod.mk.injEq, true_and] at h
        obtain ⟨hs, -⟩ := h
        subst hs
        exact ⟨rfl, { d with lastnotify := now }, by simp [WriteData], hself, fun _ => rfl⟩
      · rw [if_neg ht] at h
        simp only [Option.some.injEq, Prod.mk.injEq, true_and] at h
        obtain ⟨hs, ho⟩ := h
        subst hs ho
        refine ⟨rfl, d, hx, hself, ?_⟩
        intro hc
        simp [codes, reply716] at hc

/-! ## The gating decision -/

/-- C1, at the failing input: every user has mode `g`, nobody is an operator and
user 1 has a fresh record.  `AddAccept(1, 2)` returns true and leaves 1 with the
accept set `{2}`, so sender 2 is accepted by 1; yet `PreText(2, 1)` then returns 1 and
writes 716, 717 and 718, because the set is searched for the recipient (line 253). -/
theorem PreText_accepted_sender_is_denied :
    (worldFresh.users 1).IsModeSet 'g' = true ∧
    ((AddAccept ⟨16, false, false, 60⟩ worldFresh 1 2 false).bind fun a =>
      (PreText 64 ⟨16, false, false, 60⟩ 1000 a.2.1 2 1).map fun r =>
        (a.1, decide (2 ∈ acceptSet a.2.1 1), r.1, codes r.2.2))
      = some (true, true, 1, [(2, 716), (2, 717), (1, 718)]) := by
  decide

/-- C2, at the failing input: every user has mode `g`, nobody is an operator and
user 1 has a fresh record.  `AddAccept(1, 1)` returns true and leaves 1 with the
accept set `{1}`, so sender 2 is not accepted by 1; yet `PreText(2, 1)` then returns 0
and writes nothing, because the set is searched for the recipient (line 253). -/
theorem PreText_unaccepted_sender_is_allowed :
    (worldFresh.users 1).IsModeSet 'g' = true ∧ (worldFresh.users 2).oper = false ∧
    ((AddAccept ⟨16, false, false, 60⟩ worldFresh 1 1 false).bind fun a =>
      (PreText 64 ⟨16, false, false, 60⟩ 1000 a.2.1 2 1).map fun r =>
        (a.1, decide (2 ∈ acceptSet a.2.1 1), r.1, codes r.2.2))
      = some (true, false, 0, []) := by
  decide

/-- C3: when the recipient does not have mode `g`, `PreText` returns 0, for every
sender, accept set, configuration, clock value and width of `time_t`; it writes nothing and changes
nothing. -/
theorem PreText_not_gated (tbits : Nat) (cfg : Config) (now : Int) (s : World)
    (user dest : UserPtr) (h : (s.users dest).IsModeSet 'g' = false) :
    PreText tbits cfg now s user dest = some (0, s, []) := by
  simp [PreText, h]

/-- The recipient 1 of `worldPlain` has no mode `g`: a message from 2 is let through. -/
theorem PreText_not_gated_witness :
    (worldPlain.users 1).IsModeSet 'g' = false ∧
    PreText 64 ⟨16, true, false, 60⟩ 1000 worldPlain 2 1 = some (0, worldPlain, []) :=
  ⟨by decide, PreText_not_gated 64 ⟨16, true, false, 60⟩ 1000 worldPlain 2 1 (by decide)⟩

/-! ## Quit and nick change -/

/-- C4: after `OnUserQuit(X)` no user in the client list has `X` in its accept set,
and `X` has no record: `GetData(X, false)` returns `NULL`. -/
theorem OnUserQuit_sweeps (s : World) (X : UserPtr) :
    (OnUserQuit s X).clientlist = s.clientlist ∧
    (∀ u, u ∈ (OnUserQuit s X).clientlist → X ∉ acceptSet (OnUserQuit s X) u) ∧
    (OnUserQuit s X).ext X = none ∧
    (GetData (OnUserQuit s X) X false).2 = none := by
  have hcl : (OnUserQuit s X).clientlist = s.clientlist := by
    unfold OnUserQuit
    rw [RemoveFromAllAccepts_clientlist, RemoveData_clientlist]
  have hx : (OnUserQuit s X).ext X = none := by
    unfold OnUserQuit
    rw [RemoveFromAllAccepts_ext, RemoveData_ext]
    simp
  refine ⟨hcl, ?_, hx, ?_⟩
  · intro u hu
    rw [hcl] at hu
    unfold OnUserQuit
    rw [RemoveFromAllAccepts_acceptSet, RemoveData_clientlist]
    simp [hu]
  · rw [GetData_noextend]
    exact hx

/-- C10: with `tracknick` off, `OnUserPreNick(S, newnick)` returns 0; afterwards no
user in the client list has `S` in its accept set, and every accept set is what it was
apart from `S`: that of a client is the old one with `S` erased, that of any other
user is the old one. -/
theorem OnUserPreNick_sweeps (cfg : Config) (s : World) (S : UserPtr) (newnick : String)
    (h : cfg.tracknick = false) :
    (OnUserPreNick cfg s S newnick).1 = 0 ∧
    (OnUserPreNick cfg s S newnick).2.clientlist = s.clientlist ∧
    (∀ u, u ∈ (OnUserPreNick cfg s S newnick).2.clientlist →
      S ∉ acceptSet (OnUserPreNick cfg s S newnick).2 u) ∧
    (∀ u, acceptSet (OnUserPreNick cfg s S newnick).2 u
      = if u ∈ s.clientlist then (acceptSet s u).erase S else acceptSet s u) ∧
    (∀ u x, x ≠ S →
      (x ∈ acceptSet (OnUserPreNick cfg s S newnick).2 u ↔ x ∈ acceptSet s u)) := by
  have hw : OnUserPreNick cfg s S newnick = (0, RemoveFromAllAccepts s S) := by
    simp [OnUserPreNick, h]
  rw [hw]
  refine ⟨rfl, RemoveFromAllAccepts_clientlist s S, ?_, ?_, ?_⟩
  · intro u hu
    rw [RemoveFromAllAccepts_clientlist] at hu
    rw [RemoveFromAllAccepts_acceptSet]
    simp [hu]
  · intro u
    exact RemoveFromAllAccepts_acceptSet s S u
  · intro u x hx
    show x ∈ acceptSet (RemoveFromAllAccepts s S) u ↔ x ∈ acceptSet s u
    rw [RemoveFromAllAccepts_acceptSet]
    by_cases hu : u ∈ s.clientlist <;> simp [hu, hx]

/-- User 1 accepts user 2; after the nick change of 2 the accept set of 1 is empty. -/
theorem OnUserPreNick_sweeps_witness :
    (⟨16, false, false, 60⟩ : Config).tracknick = false ∧
    2 ∈ acceptSet worldAccepting 1 ∧
    (OnUserPreNick ⟨16, false, false, 60⟩ worldAccepting 2 "n").1 = 0 ∧
    (OnUserPreNick ⟨16, false, false, 60⟩ worldAccepting 2 "n").2.clientlist = [1, 2] ∧
    acceptSet (OnUserPreNick ⟨16, false, false, 60⟩ worldAccepting 2 "n").2 1 = ∅ :=
  have h := OnUserPreNick_sweeps ⟨16, false, false, 60⟩ worldAccepting 2 "n" rfl
  ⟨rfl, by decide, h.1, h.2.1, by rw [h.2.2.2.1 1]; decide⟩

/-! ## The accept list -/

/-- C5: when the accept set of `user` holds `maxaccepts` entries and `whotoadd` is not
among them, `AddAccept` returns false, writes 456 to `user` unless `quiet`, and leaves
every accept set as it was, so the size stays `maxaccepts`. -/
theorem AddAccept_full_list (cfg : Config) (s : World) (user whotoadd : UserPtr)
    (quiet : Bool) (hfull : (acceptSet s user).card = cfg.maxaccepts)
    (_hnot : whotoadd ∉ acceptSet s user) :
    ∃ s1 out, AddAccept cfg s user whotoadd quiet = some (false, s1, out) ∧
      codes out = (if quiet then [] else [(user, 456)]) ∧
      (∀ u, acceptSet s1 u = acceptSet s u) ∧
      (acceptSet s1 user).card = cfg.maxaccepts := by
  obtain ⟨s1, out, h, hc, hs⟩ :=
    AddAccept_of_full cfg s user whotoadd quiet (Nat.le_of_eq hfull.symm)
  exact ⟨s1, out, h, hc, hs, by rw [hs, hfull]⟩

/-- With `maxaccepts = 1`, user 1 accepts user 2 and cannot add user 3. -/
theorem AddAccept_full_list_witness :
    (acceptSet worldAccepting 1).card = 1 ∧ 3 ∉ acceptSet worldAccepting 1 ∧
    ∃ s1 out, AddAccept ⟨1, false, false, 60⟩ worldAccepting 1 3 false
        = some (false, s1, out) ∧
      codes out = (if false then [] else [(1, 456)]) ∧
      (∀ u, acceptSet s1 u = acceptSet worldAccepting u) ∧
      (acceptSet s1 1).card = 1 :=
  ⟨by decide, by decide,
    AddAccept_full_list ⟨1, false, false, 60⟩ worldAccepting 1 3 false (by decide)
      (by decide)⟩

/-- C6, as stated, fails when the first addition fills the list: with `maxaccepts = 1`
and no record, `AddAccept(1, 2)` succeeds and the second `AddAccept(1, 2)` fails with
456 (list full), not 457. -/
theorem AddAccept_twice_reports_full :
    ((AddAccept ⟨1, false, false, 60⟩ worldPlain 1 2 false).bind fun r1 =>
      (AddAccept ⟨1, false, false, 60⟩ r1.2.1 1 2 false).map fun r2 =>
        (r1.1, r2.1, codes r2.2.2))
      = some (true, false, [(1, 456)]) := by
  decide

/-- C6, amended: after a successful `AddAccept(user, target)`, a second call with the
same target returns false and leaves the world as it is; unless quiet it writes 456
when the set now holds at least `maxaccepts` entries (the capacity test of line 147
comes first) and 457 otherwise. -/
theorem AddAccept_twice (cfg : Config) (s s1 : World) (user target : UserPtr)
    (q1 q2 : Bool) (o1 : List Numeric)
    (h1 : AddAccept cfg s user target q1 = some (true, s1, o1)) :
    ∃ o2, AddAccept cfg s1 user target q2 = some (false, s1, o2) ∧
      codes o2 = (if q2 then []
        else if (acceptSet s1 user).card ≥ cfg.maxaccepts then [(user, 456)]
        else [(user, 457)]) := by
  obtain ⟨-, -, hs1, -, d, hd⟩ := AddAccept_true cfg s s1 user target q1 o1 h1
  have hmem : target ∈ d.accepting := by
    have : target ∈ acceptSet s1 user := by rw [hs1]; exact Finset.mem_insert_self _ _
    simpa [acceptSet, hd] using this
  simp only [AddAccept, GetData, GetExt, hd, acceptSet]
  by_cases hfull : d.accepting.card ≥ cfg.maxaccepts
  · rw [if_pos hfull]
    refine ⟨_, rfl, ?_⟩
    cases q2 <;> simp [codes, hfull, reply456, reply457]
  · rw [if_neg hfull, if_pos hmem]
    refine ⟨_, rfl, ?_⟩
    cases q2 <;> simp [codes, hfull, reply456, reply457]

/-- With `maxaccepts = 2`, user 1 adds user 2 twice: the second call writes 457. -/
theorem AddAccept_twice_witness :
    AddAccept ⟨2, false, false, 60⟩ worldPlain 1 2 false = some (true, worldOne, []) ∧
    ∃ o2, AddAccept ⟨2, false, false, 60⟩ worldOne 1 2 false = some (false, worldOne, o2) ∧
      codes o2 = [(1, 457)] := by
  obtain ⟨o2, h2, hc⟩ :=
    AddAccept_twice ⟨2, false, false, 60⟩ worldPlain worldOne 1 2 false false [] rfl
  refine ⟨rfl, o2, h2, ?_⟩
  rw [hc]
  decide

/-- C7: with `maxaccepts = 2`, pairwise distinct `B`, `C`, `D` and a user `A` without a
record, `AddAccept(A,B)` and `AddAccept(A,C)` return true, `AddAccept(A,D)` returns
false with 456, `RemoveAccept(A,B)` returns true, and `AddAccept(A,D)` then returns
true and leaves `A` with the accept set `{C, D}`.  In general, after a successful
removal from a set of `maxaccepts` entries (or fewer), adding a user that is not in
the set succeeds. -/
theorem accept_list_refill :
    (∀ (cfg : Config) (s : World) (A B C D : UserPtr),
      cfg.maxaccepts = 2 → s.ext A = none → B ≠ C → B ≠ D → C ≠ D →
      ∃ s1 s2 s3 o3 s4 s5,
        AddAccept cfg s A B false = some (true, s1, []) ∧
        AddAccept cfg s1 A C false = some (true, s2, []) ∧
        AddAccept cfg s2 A D false = some (false, s3, o3) ∧ codes o3 = [(A, 456)] ∧
        RemoveAccept s3 A B false = (true, s4, []) ∧
        AddAccept cfg s4 A D false = some (true, s5, []) ∧
        acceptSet s5 A = {C, D}) ∧
    (∀ (cfg : Config) (s s1 : World) (u x y : UserPtr) (q1 q2 : Bool) (o1 : List Numeric),
      (acceptSet s u).card ≤ cfg.maxaccepts →
      RemoveAccept s u x q1 = (true, s1, o1) →
      y ∉ acceptSet s1 u →
      ∃ s2, AddAccept cfg s1 u y q2 = some (true, s2, []) ∧
        acceptSet s2 u = insert y (acceptSet s1 u)) := by
  constructor
  · intro cfg s A B C D hmax hA hBC hBD hCD
    have h0 : acceptSet s A = ∅ := by simp [acceptSet, hA]
    obtain ⟨s1, e1, a1, -⟩ := AddAccept_of_room cfg s A B false
      (by rw [h0, hmax, Finset.card_empty]; exact Nat.zero_lt_two)
      (by rw [h0]; exact Finset.not_mem_empty B)
    have a1B : acceptSet s1 A = {B} := by rw [a1, h0]; rfl
    obtain ⟨s2, e2, a2, -⟩ := AddAccept_of_room cfg s1 A C false
      (by rw [a1B, hmax, Finset.card_singleton]; exact Nat.one_lt_two)
      (by rw [a1B, Finset.mem_singleton]; exact Ne.symm hBC)
    rw [a1B] at a2
    have hcard : (acceptSet s2 A).card = 2 := by
      rw [a2]
      exact Finset.card_pair (Ne.symm hBC)
    obtain ⟨s3, o3, e3, c3, a3⟩ := AddAccept_of_full cfg s2 A D false
      (by rw [hcard, hmax])
    obtain ⟨s4, e4, a4, -⟩ := RemoveAccept_of_mem s3 A B false
      (by rw [a3 A, a2]; simp)
    have a4C : acceptSet s4 A = {C} := by
      rw [a4, a3 A, a2]
      ext z
      simp only [Finset.mem_erase, Finset.mem_insert, Finset.mem_singleton]
      constructor
      · rintro ⟨hz, hz2 | hz2⟩
        · exact hz2
        · exact absurd hz2 hz
      · intro hz
        exact ⟨by rw [hz]; exact Ne.symm hBC, Or.inl hz⟩
    obtain ⟨s5, e5, a5, -⟩ := AddAccept_of_room cfg s4 A D false
      (by rw [a4C, hmax, Finset.card_singleton]; exact Nat.one_lt_two)
      (by rw [a4C, Finset.mem_singleton]; exact Ne.symm hCD)
    refine ⟨s1, s2, s3, o3, s4, s5, e1, e2, e3, by simpa using c3, e4, e5, ?_⟩
    rw [a5, a4C]
    exact Finset.pair_comm D C
  · intro cfg s s1 u x y q1 q2 o1 hfull hrem hy
    obtain ⟨hx, hs1, -⟩ := RemoveAccept_true s s1 u x q1 o1 hrem
    have hlt : (acceptSet s1 u).card < cfg.maxaccepts := by
      rw [hs1]
      exact Nat.lt_of_lt_of_le (Finset.card_erase_lt_of_mem hx) hfull
    obtain ⟨s2, e2, a2, -⟩ := AddAccept_of_room cfg s1 u y q2 hlt hy
    exact ⟨s2, e2, a2⟩

/-- The scenario for the users 1, 2, 3, 4, and a refill with `maxaccepts = 1`. -/
theorem accept_list_refill_witness :
    (∃ s1 s2 s3 o3 s4 s5,
      AddAccept ⟨2, false, false, 60⟩ worldPlain 1 2 false = some (true, s1, []) ∧
      AddAccept ⟨2, false, false, 60⟩ s1 1 3 false = some (true, s2, []) ∧
      AddAccept ⟨2, false, false, 60⟩ s2 1 4 false = some (false, s3, o3) ∧
      codes o3 = [(1, 456)] ∧
      RemoveAccept s3 1 2 false = (true, s4, []) ∧
      AddAccept ⟨2, false, false, 60⟩ s4 1 4 false = some (true, s5, []) ∧
      acceptSet s5 1 = {3, 4}) ∧
    ((acceptSet worldAccepting 1).card ≤ 1 ∧
      RemoveAccept worldAccepting 1 2 false = (true, worldRemoved, []) ∧
      3 ∉ acceptSet worldRemoved 1 ∧
      ∃ s2, AddAccept ⟨1, false, false, 60⟩ worldRemoved 1 3 false = some (true, s2, []) ∧
        acceptSet s2 1 = insert 3 (acceptSet worldRemoved 1)) :=
  ⟨accept_list_refill.1 ⟨2, false, false, 60⟩ worldPlain 1 2 3 4 rfl rfl
      (by decide) (by decide) (by decide),
    by decide, rfl, by decide,
    accept_list_refill.2 ⟨1, false, false, 60⟩ worldAccepting worldRemoved 1 2 3
      false false [] (by decide) rfl (by decide)⟩

/-! ## The notification cooldown -/

/-- C8, as stated, fails when the sum of line 260 overflows: on a 32-bit `time_t` with
`notify_cooldown = 1500000000`, the denied call of sender 2 at clock 1600000000 writes
716, 717 and 718 and stores `lastnotify = 1600000000`; the denied call of sender 3 ten
seconds later, well inside the cooldown, finds `1600000000 + 1500000000` wrapped to a
negative `time_t` and writes 716, 717 and 718 again, and changes `lastnotify`. -/
theorem PreText_cooldown_overflow :
    (fitsTime 32 1600000000 ∧ fitsTime 32 1600000010 ∧ (1500000000 : Nat) < 2 ^ 32) ∧
    ((1600000000 : Int) ≤ 1600000010 ∧
      (1600000010 : Int) ≤ 1600000000 + ((1500000000 : Nat) : Int)) ∧
    (PreText 32 ⟨16, false, false, 1500000000⟩ 1600000000 worldFresh 2 1).map
        (fun a => (a.1, codes a.2.2, lastnotifyOf a.2.1 1))
      = some (1, [(2, 716), (2, 717), (1, 718)], some 1600000000) ∧
    ((PreText 32 ⟨16, false, false, 1500000000⟩ 1600000000 worldFresh 2 1).bind fun a =>
      (PreText 32 ⟨16, false, false, 1500000000⟩ 1600000010 a.2.1 3 1).map fun r =>
        (r.1, codes r.2.2, lastnotifyOf r.2.1 1))
      = some (1, [(3, 716), (3, 717), (1, 718)], some 1600000010) := by
  refine ⟨by decide, by decide, by decide, by decide⟩

/-- C8, amended: when a denied `PreText` call for `R` at clock `t1` wrote 717 to its
sender and 718 to `R`, and the next `PreText` call for `R`, at a clock `t2` with
`t1 ≤ t2 ≤ t1 + notify_cooldown` and from any sender `S2`, is denied too, and
`t1 + notify_cooldown` is a value of `time_t` (the sum of line 260 does not overflow),
then the second call writes 716 to `S2` and nothing else, so neither 717 nor 718, and
leaves the world, hence the `lastnotify` of `R`, as it was: `t1`.  (A denied call
implies that `R` has mode `g`.) -/
theorem PreText_cooldown (tbits : Nat) (cfg : Config) (s s1 s2 : World) (R S1 S2 : UserPtr)
    (t1 t2 : Int) (o1 o2 : List Numeric)
    (hfit : fitsTime tbits (t1 + (cfg.notify_cooldown : Int)))
    (h1 : PreText tbits cfg t1 s S1 R = some (1, s1, o1))
    (hpair : (S1, 717) ∈ codes o1 ∧ (R, 718) ∈ codes o1)
    (_ht : t1 ≤ t2) (hcool : t2 ≤ t1 + (cfg.notify_cooldown : Int))
    (h2 : PreText tbits cfg t2 s1 S2 R = some (1, s2, o2)) :
    (s.users R).IsModeSet 'g' = true ∧
    codes o2 = [(S2, 716)] ∧
    (∀ r, r ∈ o2 → r.numeric ≠ 717 ∧ r.numeric ≠ 718) ∧
    s2 = s1 ∧
    lastnotifyOf s2 R = lastnotifyOf s1 R ∧ lastnotifyOf s1 R = some t1 := by
  obtain ⟨hg, -, -, d1, hd1, hself, hln⟩ := PreText_denied_inv tbits cfg t1 s s1 S1 R o1 h1
  have hl : d1.lastnotify = t1 := hln hpair.1
  obtain ⟨hg2, hov2, -, -⟩ := PreText_denied_inv tbits cfg t2 s1 s2 S2 R o2 h2
  rw [PreText_of_record tbits cfg t2 s1 S2 R d1 hg2 hov2 hd1 hself, hl,
    timeSum_of_fits tbits t1 cfg.notify_cooldown hfit, if_neg (not_lt.mpr hcool)] at h2
  simp only [Option.some.injEq, Prod.mk.injEq, true_and] at h2
  obtain ⟨hs, ho⟩ := h2
  subst hs ho
  refine ⟨hg, by simp [codes, reply716], ?_, rfl, rfl, by simp [lastnotifyOf, hd1, hl]⟩
  intro r hr
  rw [List.mem_singleton] at hr
  subst hr
  simp [reply716]

/-- Sender 2 at clock 100 and sender 3 at clock 130, with a cooldown of 60 and a 64-bit
`time_t`. -/
theorem PreText_cooldown_witness :
    fitsTime 64 (100 + ((60 : Nat) : Int)) ∧
    PreText 64 ⟨16, false, false, 60⟩ 100 worldFresh 2 1
      = some (1, worldNotified,
          [reply716 worldFresh 2 1, reply717 worldFresh 2 1, reply718 worldFresh 2 1]) ∧
    ((2, 717) ∈ codes
        [reply716 worldFresh 2 1, reply717 worldFresh 2 1, reply718 worldFresh 2 1] ∧
      (1, 718) ∈ codes
        [reply716 worldFresh 2 1, reply717 worldFresh 2 1, reply718 worldFresh 2 1]) ∧
    (100 : Int) ≤ 130 ∧ (130 : Int) ≤ 100 + ((60 : Nat) : Int) ∧
    PreText 64 ⟨16, false, false, 60⟩ 130 worldNotified 3 1
      = some (1, worldNotified, [reply716 worldNotified 3 1]) ∧
    codes [reply716 worldNotified 3 1] = [(3, 716)] ∧
    lastnotifyOf worldNotified 1 = some 100 :=
  have h := PreText_cooldown 64 ⟨16, false, false, 60⟩ worldFresh worldNotified
    worldNotified 1 2 3 100 130
    [reply716 worldFresh 2 1, reply717 worldFresh 2 1, reply718 worldFresh 2 1]
    [reply716 worldNotified 3 1] (by decide) rfl (by decide) (by decide)
    (by decide) rfl
  ⟨by decide, rfl, by decide, by decide, by decide, rfl, h.2.1, h.2.2.2.2.2⟩

/-- C9, as stated, fails at clock 0: with `notify_cooldown = 60` and a fresh record for
the recipient 1, `PreText(2, 1)` at clock 0 returns 1 and writes 716 only; 717 and 718
are not written, since `0 > 0 + 60` is false. -/
theorem PreText_fresh_at_clock_zero :
    worldFresh.ext 1 = some callerid_data.fresh ∧
    (worldFresh.users 1).IsModeSet 'g' = true ∧
    (PreText 64 ⟨16, false, false, 60⟩ 0 worldFresh 2 1).map
        (fun r => (r.1, codes r.2.2, lastnotifyOf r.2.1 1))
      = some (1, [(2, 716)], some 0) ∧
    (PreText 32 ⟨16, false, false, 60⟩ 0 worldFresh 2 1).map
        (fun r => (r.1, codes r.2.2, lastnotifyOf r.2.1 1))
      = some (1, [(2, 716)], some 0) := by
  decide

/-- C9, amended: with `notify_cooldown = 60`, a `time_t` that holds 60, a recipient `R`
with mode `g` and a fresh record, and senders that `operoverride` does not exempt:
`PreText(S1, R)` at clock 0 returns 1, writes only 716 to `S1` and leaves the world as
it was (`lastnotify = 0`), and `PreText(S2, R)` at clock 10 then does the same for
`S2`.  When the first call is made at a clock `t > 60` instead, with `t + 60` a value
of `time_t`, it returns 1, writes 716 and 717 to `S1` and 718 to `R` and sets
`lastnotify` to `t`; `PreText(S2, R)` at clock `t + 10` then returns 1, writes only
716 to `S2` and leaves the world, hence `lastnotify`, as it was. -/
theorem PreText_fresh_scenario (tbits : Nat) (cfg : Config) (s : World) (R S1 S2 : UserPtr)
    (hw : fitsTime tbits 60)
    (hcd : cfg.notify_cooldown = 60)
    (hg : (s.users R).IsModeSet 'g' = true)
    (hfresh : s.ext R = some callerid_data.fresh)
    (hov1 : (cfg.operoverride && (s.users S1).oper) = false)
    (hov2 : (cfg.operoverride && (s.users S2).oper) = false) :
    (PreText tbits cfg 0 s S1 R = some (1, s, [reply716 s S1 R]) ∧
      codes [reply716 s S1 R] = [(S1, 716)] ∧
      lastnotifyOf s R = some 0 ∧
      PreText tbits cfg 10 s S2 R = some (1, s, [reply716 s S2 R]) ∧
      codes [reply716 s S2 R] = [(S2, 716)]) ∧
    (∀ t : Int, t > 60 → fitsTime tbits (t + 60) →
      ∃ s1 o1 o2, PreText tbits cfg t s S1 R = some (1, s1, o1) ∧
        codes o1 = [(S1, 716), (S1, 717), (R, 718)] ∧
        lastnotifyOf s1 R = some t ∧
        PreText tbits cfg (t + 10) s1 S2 R = some (1, s1, o2) ∧
        codes o2 = [(S2, 716)]) := by
  have hnot : R ∉ callerid_data.fresh.accepting := Finset.not_mem_empty R
  have hl : callerid_data.fresh.lastnotify = 0 := rfl
  have hsum0 : timeSum tbits 0 60 = 60 := by
    rw [timeSum_of_fits tbits 0 60 (by simpa using hw)]
    rfl
  refine ⟨⟨?_, rfl, by simp [lastnotifyOf, hfresh, hl], ?_, rfl⟩, ?_⟩
  · rw [PreText_of_record tbits cfg 0 s S1 R _ hg hov1 hfresh hnot, hl, hcd, hsum0,
      if_neg (by decide)]
  · rw [PreText_of_record tbits cfg 10 s S2 R _ hg hov2 hfresh hnot, hl, hcd, hsum0,
      if_neg (by decide)]
  · intro t ht hfit
    refine ⟨WriteData s R { callerid_data.fresh with lastnotify := t },
      [reply716 s S1 R, reply717 s S1 R, reply718 s S1 R],
      [reply716 (WriteData s R { callerid_data.fresh with lastnotify := t }) S2 R],
      ?_, ?_, ?_, ?_, ?_⟩
    · rw [PreText_of_record tbits cfg t s S1 R _ hg hov1 hfresh hnot, hl, hcd, hsum0,
        if_pos ht]
    · simp [codes, reply716, reply717, reply718]
    · simp [lastnotifyOf, WriteData]
    · have hd : (WriteData s R { callerid_data.fresh with lastnotify := t }).ext R
          = some { callerid_data.fresh with lastnotify := t } := by
        simp [WriteData]
      have hsum : timeSum tbits t 60 = t + 60 := by
        rw [timeSum_of_fits tbits t 60 (by simpa using hfit)]
        rfl
      rw [PreText_of_record tbits cfg (t + 10)
        (WriteData s R { callerid_data.fresh with lastnotify := t }) S2 R
        { callerid_data.fresh with lastnotify := t } hg hov2 hd hnot, hcd]
      show (if t + 10 > timeSum tbits t 60 then _ else _) = _
      rw [hsum, if_neg (by omega)]
    · simp [codes, reply716]

/-- Recipient 1 with senders 2 and 3, at the clocks 0 and 10 and at 100 and 110, on a
64-bit `time_t`. -/
theorem PreText_fresh_scenario_witness :
    fitsTime 64 60 ∧ fitsTime 64 (100 + 60) ∧
    (PreText 64 ⟨16, false, false, 60⟩ 0 worldFresh 2 1
        = some (1, worldFresh, [reply716 worldFresh 2 1]) ∧
      codes [reply716 worldFresh 2 1] = [(2, 716)] ∧
      lastnotifyOf worldFresh 1 = some 0 ∧
      PreText 64 ⟨16, false, false, 60⟩ 10 worldFresh 3 1
        = some (1, worldFresh, [reply716 worldFresh 3 1]) ∧
      codes [reply716 worldFresh 3 1] = [(3, 716)]) ∧
    ∃ s1 o1 o2, PreText 64 ⟨16, false, false, 60⟩ 100 worldFresh 2 1 = some (1, s1, o1) ∧
      codes o1 = [(2, 716), (2, 717), (1, 718)] ∧
      lastnotifyOf s1 1 = some 100 ∧
      PreText 64 ⟨16, false, false, 60⟩ (100 + 10) s1 3 1 = some (1, s1, o2) ∧
      codes o2 = [(3, 716)] :=
  have h := PreText_fresh_scenario 64 ⟨16, false, false, 60⟩ worldFresh 1 2 3 (by decide)
    rfl (by decide) rfl (by decide) (by decide)
  ⟨by decide, by decide, h.1, h.2 100 (by decide) (by decide)⟩

/-! ## Lemmas on the effect of one call of `AddAccept`, `RemoveAccept`, `ListAccept` -/

theorem AddAccept_spec (cfg : Config) (s : World) (user t : UserPtr) (quiet : Bool) :
    ∃ r s1 out, AddAccept cfg s user t quiet = some (r, s1, out) ∧
      s1.users = s.users ∧ s1.clientlist = s.clientlist ∧
      (∀ u, u ≠ user → s1.ext u = s.ext u) ∧
      (∃ d1, s1.ext user = some d1) ∧
      lastnotifyVal s1 user = lastnotifyVal s user ∧
      (∀ x, x ∈ out → x.target = user) ∧
      (r = true ↔ ((acceptSet s user).card < cfg.maxaccepts ∧ t ∉ acceptSet s user)) ∧
      acceptSet s1 user = (if r then insert t (acceptSet s user) else acceptSet s user) ∧
      (r = false → s.ext user = none → cfg.maxaccepts = 0) := by
  cases h : s.ext user with
  | none =>
    by_cases hfull : cfg.maxaccepts ≤ (∅ : Finset UserPtr).card
    · refine ⟨false, Extend s user callerid_data.fresh,
        if !quiet then [reply456 cfg (Extend s user callerid_data.fresh) user] else [],
        ?_, rfl, rfl,
        ?_, ?_, ?_, ?_, ?_, ?_, ?_⟩
      · simp only [AddAccept, GetData, GetExt, h, callerid_data.fresh, ite_true]
        rw [if_pos hfull]
      · intro u hu
        simp [Extend, Function.update, hu]
      · exact ⟨callerid_data.fresh, by simp [Extend]⟩
      · simp [lastnotifyVal, Extend, h, callerid_data.fresh]
      · intro x hx
        cases quiet
        · simp only [Bool.not_false, ite_true, List.mem_singleton] at hx
          rw [hx]
          rfl
        · simp at hx
      · have : ¬ ((acceptSet s user).card < cfg.maxaccepts) := by
          simp only [acceptSet, h]
          exact Nat.not_lt.mpr hfull
        simp [this]
      · simp [acceptSet, Extend, h, callerid_data.fresh]
      · intro _ _
        simpa using hfull
    · refine ⟨true, WriteData (Extend s user callerid_data.fresh) user
          { callerid_data.fresh with accepting := insert t callerid_data.fresh.accepting },
        [], ?_, rfl, rfl, ?_, ?_, ?_, ?_, ?_, ?_, ?_⟩
      · simp only [AddAccept, GetData, GetExt, h, callerid_data.fresh, ite_true]
        rw [if_neg hfull, if_neg (Finset.not_mem_empty _)]
      · intro u hu
        simp [WriteData, Extend, Function.update, hu]
      · exact ⟨{ callerid_data.fresh with accepting := insert t callerid_data.fresh.accepting },
          by simp [WriteData]⟩
      · simp [lastnotifyVal, WriteData, h, callerid_data.fresh]
      · intro x hx
        exact absurd hx (List.not_mem_nil _)
      · simp only [acceptSet, h, true_iff]
        exact ⟨Nat.not_le.mp hfull, Finset.not_mem_empty _⟩
      · simp [acceptSet, WriteData, h, callerid_data.fresh]
      · intro hr
        exact absurd hr (by decide)
  | some d =>
    by_cases hfull : cfg.maxaccepts ≤ d.accepting.card
    · refine ⟨false, s, if !quiet then [reply456 cfg s user] else [], ?_, rfl, rfl,
        fun _ _ => rfl, ⟨d, h⟩, rfl,
        ?_, ?_, ?_, ?_⟩
      · simp only [AddAccept, GetData, GetExt, h]
        rw [if_pos hfull]
      · intro x hx
        cases quiet
        · simp only [Bool.not_false, ite_true, List.mem_singleton] at hx
          rw [hx]
          rfl
        · simp at hx
      · have : ¬ ((acceptSet s user).card < cfg.maxaccepts) := by
          simp only [acceptSet, h]
          exact Nat.not_lt.mpr hfull
        simp [this]
      · simp
      · intro _ hn
        exact absurd hn (by simp)
    · by_cases hmem : t ∈ d.accepting
      · refine ⟨false, s, if !quiet then [reply457 s user t] else [], ?_, rfl, rfl,
          fun _ _ => rfl, ⟨d, h⟩, rfl,
          ?_, ?_, ?_, ?_⟩
        · simp only [AddAccept, GetData, GetExt, h]
          rw [if_neg hfull, if_pos hmem]
        · intro x hx
          cases quiet
          · simp only [Bool.not_false, ite_true, List.mem_singleton] at hx
            rw [hx]
            rfl
          · simp at hx
        · simp [acceptSet, h, hmem]
        · simp
        · intro _ hn
          exact absurd hn (by simp)
      · refine ⟨true, WriteData s user { d with accepting := insert t d.accepting }, [],
          ?_, rfl, rfl, ?_, ?_, ?_, ?_, ?_, ?_, ?_⟩
        · simp only [AddAccept, GetData, GetExt, h]
          rw [if_neg hfull, if_neg hmem]
        · intro u hu
          simp [WriteData, Function.update, hu]
        · exact ⟨{ d with accepting := insert t d.accepting }, by simp [WriteData]⟩
        · simp [lastnotifyVal, WriteData, h]
        · intro x hx
          exact absurd hx (List.not_mem_nil _)
        · simp only [acceptSet, h, true_iff]
          exact ⟨Nat.not_le.mp hfull, hmem⟩
        · simp [acceptSet, WriteData, h]
        · intro hr
          exact absurd hr (by decide)

theorem RemoveAccept_spec (s : World) (user t : UserPtr) (quiet : Bool) :
    ∃ r s1 out, RemoveAccept s user t quiet = (r, s1, out) ∧
      s1.users = s.users ∧ s1.clientlist = s.clientlist ∧
      (∀ u, u ≠ user → s1.ext u = s.ext u) ∧
      (s1.ext user = none ↔ s.ext user = none) ∧
      lastnotifyVal s1 user = lastnotifyVal s user ∧
      (∀ x, x ∈ out → x.target = user) ∧
      (r = true ↔ t ∈ acceptSet s user) ∧
      acceptSet s1 user = (if r then (acceptSet s user).erase t else acceptSet s user) := by
  cases h : s.ext user with
  | none =>
    refine ⟨false, s, if !quiet then [reply458 s user t] else [], ?_, rfl, rfl,
      fun _ _ => rfl, ?_, rfl, ?_, ?_, ?_⟩
    · simp [RemoveAccept, GetData_noextend, h]
    · simp [h]
    · intro x hx
      cases quiet
      · simp only [Bool.not_false, ite_true, List.mem_singleton] at hx
        rw [hx]
        rfl
      · simp at hx
    · simp [acceptSet, h]
    · simp
  | some d =>
    by_cases hmem : t ∈ d.accepting
    · refine ⟨true, WriteData s user { d with accepting := d.accepting.erase t }, [], ?_,
        rfl, rfl, ?_, ?_, ?_, ?_, ?_, ?_⟩
      · simp only [RemoveAccept, GetData_noextend, h]
        rw [if_neg (not_not.mpr hmem)]
      · intro u hu
        simp [WriteData, Function.update, hu]
      · simp [WriteData]
      · simp [lastnotifyVal, WriteData, h]
      · intro x hx
        exact absurd hx (List.not_mem_nil _)
      · simp [acceptSet, h, hmem]
      · simp [acceptSet, WriteData, h]
    · refine ⟨false, s, if !quiet then [reply458 s user t] else [], ?_, rfl, rfl,
        fun _ _ => rfl, ?_, rfl, ?_, ?_, ?_⟩
      · simp only [RemoveAccept, GetData_noextend, h]
        rw [if_pos hmem]
      · simp [h]
      · intro x hx
        cases quiet
        · simp only [Bool.not_false, ite_true, List.mem_singleton] at hx
          rw [hx]
          rfl
        · simp at hx
      · simp [acceptSet, h, hmem]
      · simp

theorem ListAccept_spec (s : World) (user : UserPtr) :
    ListAccept s user
      = (s, ((acceptSet s user).sort (· ≤ ·)).map (reply281 s user) ++ [reply282 s user]) := by
  unfold ListAccept
  rw [GetData_noextend]
  cases h : s.ext user <;> simp [acceptSet, h]

/-! ## Lemmas on one sub-token of `Handle` -/

theorem FindNick_mem (s : World) (nick : String) (t : UserPtr)
    (h : FindNick s nick = some t) : t ∈ s.clientlist :=
  List.mem_of_find?_eq_some h

theorem token_classify (cfg : Config) (user : UserPtr) (s : World) (tok : String) :
    Handle.token cfg user s tok =
      match classify tok with
      | TokKind.empty => some (false, s, [])
      | TokKind.list =>
        if (s.users user).is_local then some (false, s, [])
        else some (false, s, (ListAccept s user).2)
      | TokKind.remove nick =>
        match FindNick s nick with
        | some t => some (RemoveAccept s user t false)
        | none => some (false, s, [])
      | TokKind.add nick =>
        match FindNick s nick with
        | some t => AddAccept cfg s user t false
        | none => some (false, s, [reply401 s user tok]) := by
  unfold Handle.token Handle.body classify
  cases hd : tok.data with
  | nil => rfl
  | cons c rest =>
    simp only []
    by_cases hstar : tok = "*"
    · simp only [hstar, if_true]
      by_cases hl : (s.users user).is_local = true
      · simp [hl]
      · simp [hl, ListAccept_spec]
    · simp only [hstar, if_false]
      by_cases hm : c = '-'
      · simp only [hm, if_true]
        cases hf : FindNick s (String.mk rest) with
        | none => rfl
        | some t => simp
      · simp only [hm, if_false]
        by_cases hp : c = '+'
        · simp only [hp, if_true]
          cases hf : FindNick s (String.mk rest) with
          | none => simp
          | some t =>
            simp only []
            cases ha : AddAccept cfg s user t false with
            | none => rfl
            | some r => simp
        · simp only [hp, if_false]
          cases hf : FindNick s tok with
          | none => simp
          | some t =>
            simp only []
            cases ha : AddAccept cfg s user t false with
            | none => rfl
            | some r => simp

theorem ListAccept_targets (s : World) (user : UserPtr) (x : Numeric)
    (hx : x ∈ (ListAccept s user).2) : x.target = user := by
  rw [ListAccept_spec] at hx
  simp only [List.mem_append, List.mem_map, List.mem_singleton] at hx
  rcases hx with ⟨i, -, hi⟩ | hx
  · rw [← hi]
    rfl
  · rw [hx]
    rfl

theorem token_spec (cfg : Config) (user : UserPtr) (s : World) (tok : String) :
    ∃ r s1 o, Handle.token cfg user s tok = some (r, s1, o) ∧
      s1.users = s.users ∧ s1.clientlist = s.clientlist ∧
      (∀ u, u ≠ user → s1.ext u = s.ext u) ∧
      lastnotifyVal s1 user = lastnotifyVal s user ∧
      (∀ x, x ∈ o → x.target = user) ∧
      (s.ext user ≠ none → s1.ext user ≠ none) ∧
      r = (additionSucceeds cfg user s tok || removalSucceeds user s tok) ∧
      (r = true ↔ acceptSet s1 user ≠ acceptSet s user) ∧
      (∀ x, x ∈ acceptSet s1 user → x ∈ acceptSet s user ∨ x ∈ s.clientlist) ∧
      ((acceptSet s user).card ≤ cfg.maxaccepts →
        (acceptSet s1 user).card ≤ cfg.maxaccepts) ∧
      (s.ext user = none → s1.ext user ≠ none →
        additionSucceeds cfg user s tok = true ∨ cfg.maxaccepts = 0) := by
  have hsame : ∀ o : List Numeric, (∀ x, x ∈ o → x.target = user) →
      additionSucceeds cfg user s tok = false → removalSucceeds user s tok = false →
      Handle.token cfg user s tok = some (false, s, o) →
      ∃ r s1 o, Handle.token cfg user s tok = some (r, s1, o) ∧
        s1.users = s.users ∧ s1.clientlist = s.clientlist ∧
        (∀ u, u ≠ user → s1.ext u = s.ext u) ∧
        lastnotifyVal s1 user = lastnotifyVal s user ∧
        (∀ x, x ∈ o → x.target = user) ∧
        (s.ext user ≠ none → s1.ext user ≠ none) ∧
        r = (additionSucceeds cfg user s tok || removalSucceeds user s tok) ∧
        (r = true ↔ acceptSet s1 user ≠ acceptSet s user) ∧
        (∀ x, x ∈ acceptSet s1 user → x ∈ acceptSet s user ∨ x ∈ s.clientlist) ∧
        ((acceptSet s user).card ≤ cfg.maxaccepts →
          (acceptSet s1 user).card ≤ cfg.maxaccepts) ∧
        (s.ext user = none → s1.ext user ≠ none →
          additionSucceeds cfg user s tok = true ∨ cfg.maxaccepts = 0) := by
    intro o ho ha hr he
    refine ⟨false, s, o, he, rfl, rfl, fun _ _ => rfl, rfl, ho, fun h => h, ?_, ?_,
      fun x hx => Or.inl hx, fun h => h, fun h1 h2 => absurd h1 h2⟩
    · rw [ha, hr]
      rfl
    · simp
  have hcl := token_classify cfg user s tok
  cases hc : classify tok with
  | empty =>
    rw [hc] at hcl
    exact hsame [] (fun x hx => absurd hx (List.not_mem_nil _))
      (by simp [additionSucceeds, hc]) (by simp [removalSucceeds, hc]) hcl
  | list =>
    rw [hc] at hcl
    by_cases hl : (s.users user).is_local = true
    · simp only [hl, if_true] at hcl
      exact hsame [] (fun x hx => absurd hx (List.not_mem_nil _))
        (by simp [additionSucceeds, hc]) (by simp [removalSucceeds, hc]) hcl
    · simp only [hl, if_false] at hcl
      exact hsame _ (ListAccept_targets s user)
        (by simp [additionSucceeds, hc]) (by simp [removalSucceeds, hc]) hcl
  | remove nick =>
    rw [hc] at hcl
    cases hf : FindNick s nick with
    | none =>
      simp only [hf] at hcl
      exact hsame [] (fun x hx => absurd hx (List.not_mem_nil _))
        (by simp [additionSucceeds, hc]) (by simp [removalSucceeds, hc, hf]) hcl
    | some t =>
      simp only [hf] at hcl
      obtain ⟨r, s1, o, he, hu, hcl1, hoth, hrec, hln, htg, hr, hset⟩ :=
        RemoveAccept_spec s user t false
      rw [he] at hcl
      refine ⟨r, s1, o, hcl, hu, hcl1, hoth, hln, htg, ?_, ?_, ?_, ?_, ?_, ?_⟩
      · intro h1 h2
        exact h1 (hrec.mp h2)
      · cases r
        · have : t ∉ acceptSet s user := fun hm => absurd (hr.mpr hm) (by decide)
          simp [additionSucceeds, removalSucceeds, hc, hf, this]
        · have : t ∈ acceptSet s user := hr.mp rfl
          simp [additionSucceeds, removalSucceeds, hc, hf, this]
      · cases r
        · simp [hset]
        · have : t ∈ acceptSet s user := hr.mp rfl
          simp only [hset, if_true, true_iff]
          intro heq
          exact (Finset.erase_eq_self.mp heq) this
      · intro x hx
        cases r
        · simp only [hset] at hx
          exact Or.inl hx
        · simp only [hset, if_true] at hx
          exact Or.inl (Finset.mem_of_mem_erase hx)
      · intro hle
        cases r
        · simpa [hset] using hle
        · simp only [hset, if_true]
          exact le_trans (Finset.card_erase_le) hle
      · intro h1 h2
        exact absurd (hrec.mpr h1) h2
  | add nick =>
    rw [hc] at hcl
    cases hf : FindNick s nick with
    | none =>
      simp only [hf] at hcl
      refine hsame _ ?_ (by simp [additionSucceeds, hc, hf]) (by simp [removalSucceeds, hc])
        hcl
      intro x hx
      rw [List.mem_singleton] at hx
      rw [hx]
      rfl
    | some t =>
      simp only [hf] at hcl
      obtain ⟨r, s1, o, he, hu, hcl1, hoth, hrec, hln, htg, hr, hset, hzero⟩ :=
        AddAccept_spec cfg s user t false
      rw [he] at hcl
      refine ⟨r, s1, o, hcl, hu, hcl1, hoth, hln, htg, ?_, ?_, ?_, ?_, ?_, ?_⟩
      · intro _ h2
        obtain ⟨d1, hd1⟩ := hrec
        rw [hd1] at h2
        exact absurd h2 (by simp)
      · cases r
        · have : ¬ ((acceptSet s user).card < cfg.maxaccepts ∧ t ∉ acceptSet s user) :=
            fun hm => absurd (hr.mpr hm) (by decide)
          have h2 : (decide ((acceptSet s user).card < cfg.maxaccepts) &&
              decide (t ∉ acceptSet s user)) = false := by
            rw [Bool.and_eq_false_iff]
            by_cases h3 : (acceptSet s user).card < cfg.maxaccepts
            · right
              exact decide_eq_false (fun h4 => this ⟨h3, h4⟩)
            · left
              exact decide_eq_false h3
          simp only [additionSucceeds, removalSucceeds, hc, hf, h2]
          rfl
        · have h1 := hr.mp rfl
          have h2 : (decide ((acceptSet s user).card < cfg.maxaccepts) &&
              decide (t ∉ acceptSet s user)) = true := by
            rw [Bool.and_eq_true]
            exact ⟨decide_eq_true h1.1, decide_eq_true h1.2⟩
          simp only [additionSucceeds, removalSucceeds, hc, hf, h2]
          rfl
      · cases r
        · simp [hset]
        · have h1 := hr.mp rfl
          simp only [hset, if_true, true_iff]
          intro heq
          exact h1.2 (Finset.insert_eq_self.mp heq)
      · intro x hx
        cases r
        · simp only [hset] at hx
          exact Or.inl hx
        · simp only [hset, if_true, Finset.mem_insert] at hx
          rcases hx with hx | hx
          · right
            rw [hx]
            exact FindNick_mem s nick t hf
          · exact Or.inl hx
      · intro hle
        cases r
        · simpa [hset] using hle
        · have h1 := hr.mp rfl
          simp only [hset, if_true]
          rw [Finset.card_insert_of_not_mem h1.2]
          exact h1.1
      · intro h1 _
        cases r
        · exact Or.inr (hzero rfl h1)
        · left
          have h3 := hr.mp rfl
          have h2 : (decide ((acceptSet s user).card < cfg.maxaccepts) &&
              decide (t ∉ acceptSet s user)) = true := by
            rw [Bool.and_eq_true]
            exact ⟨decide_eq_true h3.1, decide_eq_true h3.2⟩
          simp only [additionSucceeds, hc, hf, h2]

/-! ## Lemmas on the loops of `Handle` -/

theorem body_acc (cfg : Config) (user : UserPtr) (b : Bool) (s : World)
    (out : List Numeric) (tok : String) :
    Handle.body cfg user (b, s, out) tok
      = (Handle.token cfg user s tok).map fun r => (r.1 || b, r.2.1, out ++ r.2.2) := by
  unfold Handle.token Handle.body
  cases hd : tok.data with
  | nil => simp
  | cons c rest =>
    simp only []
    by_cases hstar : tok = "*"
    · simp only [hstar, if_true]
      by_cases hl : (s.users user).is_local = true
      · simp [hl]
      · simp [hl]
    · simp only [hstar, if_false]
      by_cases hm : c = '-'
      · simp only [hm, if_true]
        cases hf : FindNick s (String.mk rest) with
        | none => simp
        | some t => simp
      · simp only [hm, if_false]
        cases hf : FindNick s (if c = '+' then String.mk rest else tok) with
        | none => simp
        | some t =>
          simp only []
          cases ha : AddAccept cfg s user t false with
          | none => rfl
          | some r => simp

theorem body_eq (cfg : Config) (user : UserPtr) (b : Bool) (s : World)
    (out : List Numeric) (tok : String) :
    Handle.body cfg user (b, s, out) tok
      = some (Handle.flag cfg user s tok || b, Handle.after cfg user s tok,
          out ++ Handle.replies cfg user s tok) := by
  obtain ⟨r, s1, o, he, -⟩ := token_spec cfg user s tok
  rw [body_acc]
  simp [Handle.flag, Handle.after, Handle.replies, he]

theorem fold_eq (cfg : Config) (user : UserPtr) (toks : List String) (b : Bool) (s : World)
    (out : List Numeric) :
    toks.foldlM (Handle.body cfg user) (b, s, out)
      = some (anyToken (Handle.flag cfg user) cfg user s toks || b,
          toks.foldl (Handle.after cfg user) s,
          out ++ Handle.repliesAll cfg user s toks) := by
  induction toks generalizing b s out with
  | nil => simp [anyToken, Handle.repliesAll]
  | cons tok toks ih =>
    rw [List.foldlM_cons, body_eq]
    simp only [Option.bind_eq_bind, Option.some_bind]
    rw [ih]
    simp only [anyToken, Handle.repliesAll, List.foldl_cons, List.append_assoc,
      Option.some.injEq, Prod.mk.injEq, and_true]
    cases anyToken (Handle.flag cfg user) cfg user (Handle.after cfg user s tok) toks <;>
      cases b <;> cases Handle.flag cfg user s tok <;> rfl

theorem foldlM_flatMap {σ α β : Type} (f : σ → β → Option σ) (g : α → List β)
    (l : List α) (st : σ) :
    l.foldlM (fun st a => (g a).foldlM f st) st = (l.flatMap g).foldlM f st := by
  induction l generalizing st with
  | nil => rfl
  | cons a l ih =>
    rw [List.foldlM_cons, List.flatMap_cons, List.foldlM_append]
    cases h : (g a).foldlM f st with
    | none => rfl
    | some st1 =>
      simp only [Option.bind_eq_bind, Option.some_bind]
      exact ih st1

theorem Handle_eq (cfg : Config) (s : World) (parameters : List String) (user : UserPtr) :
    Handle cfg s parameters user
      = some (if anyToken (Handle.flag cfg user) cfg user s (Handle.tokens parameters)
            then CmdResult.CMD_FAILURE else CmdResult.CMD_SUCCESS,
          (Handle.tokens parameters).foldl (Handle.after cfg user) s,
          Handle.repliesAll cfg user s (Handle.tokens parameters)) := by
  unfold Handle
  rw [foldlM_flatMap (Handle.body cfg user) commasepstream parameters (false, s, [])]
  show (match (Handle.tokens parameters).foldlM (Handle.body cfg user) (false, s, []) with
    | some (atleastonechange, s1, out) =>
      some (if atleastonechange then CmdResult.CMD_FAILURE else CmdResult.CMD_SUCCESS, s1, out)
    | none => none) = _
  rw [fold_eq]
  simp

theorem after_spec (cfg : Config) (user : UserPtr) (s : World) (tok : String) :
    (Handle.after cfg user s tok).users = s.users ∧
    (Handle.after cfg user s tok).clientlist = s.clientlist ∧
    (∀ u, u ≠ user → (Handle.after cfg user s tok).ext u = s.ext u) ∧
    lastnotifyVal (Handle.after cfg user s tok) user = lastnotifyVal s user ∧
    (∀ x, x ∈ Handle.replies cfg user s tok → x.target = user) ∧
    (s.ext user ≠ none → (Handle.after cfg user s tok).ext user ≠ none) ∧
    Handle.flag cfg user s tok
      = (additionSucceeds cfg user s tok || removalSucceeds user s tok) ∧
    (Handle.flag cfg user s tok = true ↔
      acceptSet (Handle.after cfg user s tok) user ≠ acceptSet s user) ∧
    (∀ x, x ∈ acceptSet (Handle.after cfg user s tok) user →
      x ∈ acceptSet s user ∨ x ∈ s.clientlist) ∧
    ((acceptSet s user).card ≤ cfg.maxaccepts →
      (acceptSet (Handle.after cfg user s tok) user).card ≤ cfg.maxaccepts) ∧
    (s.ext user = none → (Handle.after cfg user s tok).ext user ≠ none →
      additionSucceeds cfg user s tok = true ∨ cfg.maxaccepts = 0) := by
  obtain ⟨r, s1, o, he, h⟩ := token_spec cfg user s tok
  simp only [Handle.after, Handle.flag, Handle.replies, he]
  exact h

theorem flag_eq_changesSet (cfg : Config) (user : UserPtr) (s : World) (tok : String) :
    Handle.flag cfg user s tok = changesSet cfg user s tok := by
  have h := (after_spec cfg user s tok).2.2.2.2.2.2.2.1
  unfold changesSet
  cases hf : Handle.flag cfg user s tok
  · have : ¬ (acceptSet (Handle.after cfg user s tok) user ≠ acceptSet s user) := by
      intro hne
      rw [h.mpr hne] at hf
      exact absurd hf (by decide)
    exact (decide_eq_false this).symm
  · exact (decide_eq_true (h.mp hf)).symm

theorem anyToken_congr (P Q : World → String → Bool) (cfg : Config) (user : UserPtr)
    (h : ∀ w tok, P w tok = Q w tok) (s : World) (toks : List String) :
    anyToken P cfg user s toks = anyToken Q cfg user s toks := by
  induction toks generalizing s with
  | nil => rfl
  | cons tok toks ih => simp only [anyToken, h, ih]

theorem anyToken_append (P : World → String → Bool) (cfg : Config) (user : UserPtr)
    (s : World) (l l2 : List String) :
    anyToken P cfg user s (l ++ l2)
      = (anyToken P cfg user s l ||
          anyToken P cfg user (l.foldl (Handle.after cfg user) s) l2) := by
  induction l generalizing s with
  | nil => simp [anyToken]
  | cons tok l ih =>
    show (P s tok || anyToken P cfg user (Handle.after cfg user s tok) (l ++ l2)) = _
    rw [ih]
    simp only [anyToken, List.foldl_cons, Bool.or_assoc]

theorem repliesAll_append (cfg : Config) (user : UserPtr) (s : World) (l l2 : List String) :
    Handle.repliesAll cfg user s (l ++ l2)
      = Handle.repliesAll cfg user s l ++
          Handle.repliesAll cfg user (l.foldl (Handle.after cfg user) s) l2 := by
  induction l generalizing s with
  | nil => simp [Handle.repliesAll]
  | cons tok l ih =>
    show Handle.replies cfg user s tok ++
      Handle.repliesAll cfg user (Handle.after cfg user s tok) (l ++ l2) = _
    rw [ih]
    simp only [Handle.repliesAll, List.foldl_cons, List.append_assoc]

theorem repliesAll_targets (cfg : Config) (user : UserPtr) (s : World) (toks : List String)
    (x : Numeric) (hx : x ∈ Handle.repliesAll cfg user s toks) : x.target = user := by
  induction toks generalizing s with
  | nil => exact absurd hx (List.not_mem_nil _)
  | cons tok toks ih =>
    simp only [Handle.repliesAll, List.mem_append] at hx
    rcases hx with hx | hx
    · exact (after_spec cfg user s tok).2.2.2.2.1 x hx
    · exact ih _ hx

theorem foldl_after_induct (cfg : Config) (user : UserPtr) (P : World → Prop)
    (hstep : ∀ w tok, P w → P (Handle.after cfg user w tok)) (toks : List String)
    (s : World) (h : P s) : P (toks.foldl (Handle.after cfg user) s) := by
  induction toks generalizing s with
  | nil => exact h
  | cons tok toks ih => exact ih _ (hstep s tok h)

theorem afterAll_spec (cfg : Config) (user : UserPtr) (s : World) (toks : List String) :
    (toks.foldl (Handle.after cfg user) s).users = s.users ∧
    (toks.foldl (Handle.after cfg user) s).clientlist = s.clientlist ∧
    (∀ u, u ≠ user → (toks.foldl (Handle.after cfg user) s).ext u = s.ext u) ∧
    lastnotifyVal (toks.foldl (Handle.after cfg user) s) user = lastnotifyVal s user ∧
    (s.ext user ≠ none → (toks.foldl (Handle.after cfg user) s).ext user ≠ none) ∧
    (∀ x, x ∈ acceptSet (toks.foldl (Handle.after cfg user) s) user →
      x ∈ acceptSet s user ∨ x ∈ s.clientlist) ∧
    ((acceptSet s user).card ≤ cfg.maxaccepts →
      (acceptSet (toks.foldl (Handle.after cfg user) s) user).card ≤ cfg.maxaccepts) := by
  refine foldl_after_induct cfg user
    (fun w => w.users = s.users ∧ w.clientlist = s.clientlist ∧
      (∀ u, u ≠ user → w.ext u = s.ext u) ∧
      lastnotifyVal w user = lastnotifyVal s user ∧
      (s.ext user ≠ none → w.ext user ≠ none) ∧
      (∀ x, x ∈ acceptSet w user → x ∈ acceptSet s user ∨ x ∈ s.clientlist) ∧
      ((acceptSet s user).card ≤ cfg.maxaccepts →
        (acceptSet w user).card ≤ cfg.maxaccepts)) ?_ toks s
    ⟨rfl, rfl, fun _ _ => rfl, rfl, fun h => h, fun x hx => Or.inl hx, fun h => h⟩
  intro w tok ⟨h1, h2, h3, h4, h5, h6, h7⟩
  obtain ⟨a1, a2, a3, a4, -, a6, -, -, a9, a10, -⟩ := after_spec cfg user w tok
  refine ⟨a1.trans h1, a2.trans h2, fun u hu => (a3 u hu).trans (h3 u hu), a4.trans h4,
    fun h => a6 (h5 h), ?_, fun h => a10 (h7 h)⟩
  intro x hx
  rcases a9 x hx with hx | hx
  · exact h6 x hx
  · right
    rw [← h2]
    exact hx

theorem Handle_spec (cfg : Config) (s : World) (parameters : List String) (user : UserPtr) :
    ∃ r s1 out, Handle cfg s parameters user = some (r, s1, out) ∧
      s1.users = s.users ∧ s1.clientlist = s.clientlist ∧
      (∀ u, u ≠ user → s1.ext u = s.ext u) ∧
      lastnotifyVal s1 user = lastnotifyVal s user ∧
      (s.ext user ≠ none → s1.ext user ≠ none) ∧
      (∀ x, x ∈ acceptSet s1 user → x ∈ acceptSet s user ∨ x ∈ s.clientlist) ∧
      ((acceptSet s user).card ≤ cfg.maxaccepts →
        (acceptSet s1 user).card ≤ cfg.maxaccepts) ∧
      (∀ x, x ∈ out → x.target = user) := by
  obtain ⟨h1, h2, h3, h4, h5, h6, h7⟩ := afterAll_spec cfg user s (Handle.tokens parameters)
  exact ⟨_, _, _, Handle_eq cfg s parameters user, h1, h2, h3, h4, h5, h6, h7,
    repliesAll_targets cfg user s (Handle.tokens parameters)⟩

/-! ## Lemmas on the effect of `PreText` and `RemoveData` -/

theorem PreText_spec (tbits : Nat) (cfg : Config) (now : Int) (s : World)
    (user dest : UserPtr) :
    ∃ r s1 out, PreText tbits cfg now s user dest = some (r, s1, out) ∧
      s1.users = s.users ∧ s1.clientlist = s.clientlist ∧
      (∀ u, u ≠ dest → s1.ext u = s.ext u) ∧
      (∀ u, acceptSet s1 u = acceptSet s u) ∧
      (((user, 717) ∈ codes out ∧ (dest, 718) ∈ codes out) →
        lastnotifyVal s1 dest = now ∧
        now > timeSum tbits (lastnotifyVal s dest) cfg.notify_cooldown) ∧
      (¬ ((user, 717) ∈ codes out ∧ (dest, 718) ∈ codes out) →
        lastnotifyVal s1 dest = lastnotifyVal s dest) := by
  have hsame : ∀ (r : Int) (out : List Numeric),
      ¬ ((user, 717) ∈ codes out ∧ (dest, 718) ∈ codes out) →
      PreText tbits cfg now s user dest = some (r, s, out) →
      ∃ r s1 out, PreText tbits cfg now s user dest = some (r, s1, out) ∧
        s1.users = s.users ∧ s1.clientlist = s.clientlist ∧
        (∀ u, u ≠ dest → s1.ext u = s.ext u) ∧
        (∀ u, acceptSet s1 u = acceptSet s u) ∧
        (((user, 717) ∈ codes out ∧ (dest, 718) ∈ codes out) →
          lastnotifyVal s1 dest = now ∧
          now > timeSum tbits (lastnotifyVal s dest) cfg.notify_cooldown) ∧
        (¬ ((user, 717) ∈ codes out ∧ (dest, 718) ∈ codes out) →
          lastnotifyVal s1 dest = lastnotifyVal s dest) := by
    intro r out hno he
    exact ⟨r, s, out, he, rfl, rfl, fun _ _ => rfl, fun _ => rfl,
      fun h => absurd h hno, fun _ => rfl⟩
  by_cases hg : (s.users dest).IsModeSet 'g' = true
  swap
  · exact hsame 0 [] (by simp [codes]) (by simp [PreText, hg])
  by_cases hov : (cfg.operoverride && (s.users user).oper) = true
  · refine hsame 0 [] (by simp [codes]) ?_
    simp only [PreText, hg, hov]
    simp
  have hov2 : (cfg.operoverride && (s.users user).oper) = false := by simpa using hov
  cases hx : s.ext dest with
  | none =>
    have he : PreText tbits cfg now s user dest
        = if now > timeSum tbits 0 cfg.notify_cooldown then
            some (1, WriteData (Extend s dest callerid_data.fresh) dest
                { callerid_data.fresh with lastnotify := now },
              [reply716 (Extend s dest callerid_data.fresh) user dest,
               reply717 (Extend s dest callerid_data.fresh) user dest,
               reply718 (Extend s dest callerid_data.fresh) user dest])
          else
            some (1, Extend s dest callerid_data.fresh,
              [reply716 (Extend s dest callerid_data.fresh) user dest]) := by
      simp only [PreText, hg, hov2, GetData, GetExt, hx, callerid_data.fresh]
      simp
    have hacc : ∀ (w : World) (d : callerid_data), d.accepting = ∅ →
        w.ext = Function.update s.ext dest (some d) → ∀ u, acceptSet w u = acceptSet s u := by
      intro w d hd hw u
      by_cases hu : u = dest
      · subst hu
        simp [acceptSet, hw, hx, hd]
      · simp [acceptSet, hw, Function.update, hu]
    by_cases ht : now > timeSum tbits 0 cfg.notify_cooldown
    · rw [if_pos ht] at he
      refine ⟨_, _, _, he, rfl, rfl, ?_, ?_, ?_, ?_⟩
      · intro u hu
        simp [WriteData, Extend, Function.update, hu]
      · exact hacc _ { callerid_data.fresh with lastnotify := now } rfl
          (by simp [WriteData, Extend])
      · intro _
        refine ⟨by simp [lastnotifyVal, WriteData], ?_⟩
        simp only [lastnotifyVal, hx]
        exact ht
      · intro hno
        exact absurd (by simp [codes, reply716, reply717, reply718]) hno
    · rw [if_neg ht] at he
      refine ⟨_, _, _, he, rfl, rfl, ?_, ?_, ?_, ?_⟩
      · intro u hu
        simp [Extend, Function.update, hu]
      · exact hacc _ callerid_data.fresh rfl (by simp [Extend])
      · intro h
        simp [codes, reply716] at h
      · intro _
        simp [lastnotifyVal, hx, Extend, callerid_data.fresh]
  | some d =>
    by_cases hself : dest ∈ d.accepting
    · refine hsame 0 [] (by simp [codes]) ?_
      simp only [PreText, hg, hov2, GetData, GetExt, hx]
      simp [hself]
    · have he := PreText_of_record tbits cfg now s user dest d hg hov2 hx hself
      by_cases ht : now > timeSum tbits d.lastnotify cfg.notify_cooldown
      · rw [if_pos ht] at he
        refine ⟨_, _, _, he, rfl, rfl, ?_, ?_, ?_, ?_⟩
        · intro u hu
          simp [WriteData, Function.update, hu]
        · intro u
          by_cases hu : u = dest
          · subst hu
            simp [acceptSet, WriteData, hx]
          · simp [acceptSet, WriteData, Function.update, hu]
        · intro _
          refine ⟨by simp [lastnotifyVal, WriteData], ?_⟩
          simp only [lastnotifyVal, hx]
          exact ht
        · intro hno
          exact absurd (by simp [codes, reply716, reply717, reply718]) hno
      · rw [if_neg ht] at he
        exact hsame 1 _ (by simp [codes, reply716]) he

theorem RemoveData_acceptSet (s : World) (who u : UserPtr) :
    acceptSet (RemoveData s who) u = if u = who then ∅ else acceptSet s u := by
  unfold acceptSet
  rw [RemoveData_ext]
  by_cases hu : u = who <;> simp [hu]

theorem after_of_not_add (cfg : Config) (user : UserPtr) (s : World) (tok : String)
    (hadd : ∀ nick t, classify tok = TokKind.add nick → FindNick s nick ≠ some t)
    (hnone : s.ext user = none) : (Handle.after cfg user s tok).ext user = none := by
  have hcl := token_classify cfg user s tok
  unfold Handle.after
  cases hc : classify tok with
  | empty =>
    rw [hc] at hcl
    simp only [hcl]
    exact hnone
  | list =>
    rw [hc] at hcl
    by_cases hl : (s.users user).is_local = true
    · simp only [hl, if_true] at hcl
      simp only [hcl]
      exact hnone
    · simp only [hl, if_false] at hcl
      simp only [hcl]
      exact hnone
  | remove nick =>
    rw [hc] at hcl
    cases hf : FindNick s nick with
    | none =>
      simp only [hf] at hcl
      simp only [hcl]
      exact hnone
    | some t =>
      simp only [hf] at hcl
      obtain ⟨r, s1, o, he, -, -, -, hrec, -⟩ := RemoveAccept_spec s user t false
      rw [he] at hcl
      simp only [hcl]
      exact hrec.mpr hnone
  | add nick =>
    rw [hc] at hcl
    cases hf : FindNick s nick with
    | none =>
      simp only [hf] at hcl
      simp only [hcl]
      exact hnone
    | some t => exact absurd hf (hadd nick t hc)

theorem record_needs_addition (cfg : Config) (user : UserPtr) (hmax : 1 ≤ cfg.maxaccepts)
    (toks : List String) (s : World) (hnone : s.ext user = none)
    (hrec : (toks.foldl (Handle.after cfg user) s).ext user ≠ none) :
    anyToken (additionSucceeds cfg user) cfg user s toks = true := by
  induction toks generalizing s with
  | nil => exact absurd hnone hrec
  | cons tok toks ih =>
    simp only [anyToken, Bool.or_eq_true]
    by_cases h1 : (Handle.after cfg user s tok).ext user = none
    · exact Or.inr (ih _ h1 hrec)
    · rcases (after_spec cfg user s tok).2.2.2.2.2.2.2.2.2.2 hnone h1 with h | h
      · exact Or.inl h
      · omega

/-! ## Lemmas on sequences of calls and of events -/

theorem acceptSet_of_ext_eq (s s1 : World) (u : UserPtr) (h : s1.ext u = s.ext u) :
    acceptSet s1 u = acceptSet s u := by
  simp [acceptSet, h]

theorem ext_ne_none_of_mem (s : World) (u x : UserPtr) (h : x ∈ acceptSet s u) :
    s.ext u ≠ none := by
  intro hn
  simp [acceptSet, hn] at h

theorem RemoveFromAllAccepts_card (s : World) (who u : UserPtr) :
    (acceptSet (RemoveFromAllAccepts s who) u).card ≤ (acceptSet s u).card := by
  rw [RemoveFromAllAccepts_acceptSet]
  by_cases hu : u ∈ s.clientlist
  · simp only [hu, if_true]
    exact Finset.card_erase_le
  · simp [hu]

theorem RemoveData_card (s : World) (who u : UserPtr) :
    (acceptSet (RemoveData s who) u).card ≤ (acceptSet s u).card := by
  rw [RemoveData_acceptSet]
  by_cases hu : u = who <;> simp [hu]

theorem apply_cap (tbits : Nat) (cfg : Config) (TYPE_USER : Int) (s : World) (c : Call)
    (h : ∀ u, (acceptSet s u).card ≤ cfg.maxaccepts) :
    ∃ s1, Call.apply tbits cfg TYPE_USER s c = some s1 ∧
      ∀ u, (acceptSet s1 u).card ≤ cfg.maxaccepts := by
  cases c with
  | handle parameters user =>
    obtain ⟨r, s1, out, he, -, -, h3, -, -, -, h7, -⟩ := Handle_spec cfg s parameters user
    refine ⟨s1, by simp [Call.apply, he], ?_⟩
    intro u
    by_cases hu : u = user
    · rw [hu]
      exact h7 (h user)
    · rw [acceptSet_of_ext_eq s s1 u (h3 u hu)]
      exact h u
  | preText now user dest =>
    obtain ⟨r, s1, out, he, -, -, -, h4, -⟩ := PreText_spec tbits cfg now s user dest
    refine ⟨s1, by simp [Call.apply, he], ?_⟩
    intro u
    rw [h4 u]
    exact h u
  | preNick user newnick =>
    refine ⟨_, rfl, ?_⟩
    intro u
    unfold OnUserPreNick
    by_cases ht : cfg.tracknick = true
    · simp only [ht, Bool.not_true, Bool.false_eq_true, if_false]
      exact h u
    · simp only [ht, Bool.not_false, if_true]
      exact le_trans (RemoveFromAllAccepts_card s user u) (h u)
  | quit user =>
    refine ⟨_, rfl, ?_⟩
    intro u
    unfold OnUserQuit
    exact le_trans (RemoveFromAllAccepts_card _ user u)
      (le_trans (RemoveData_card s user u) (h u))
  | cleanup type item =>
    refine ⟨_, rfl, ?_⟩
    intro u
    unfold OnCleanup
    by_cases ht : type ≠ TYPE_USER
    · rw [if_pos ht]
      exact h u
    · rw [if_neg ht]
      exact le_trans (RemoveData_card s item u) (h u)

theorem runCalls_cap (tbits : Nat) (cfg : Config) (TYPE_USER : Int) (calls : List Call)
    (s : World) (h : ∀ u, (acceptSet s u).card ≤ cfg.maxaccepts) :
    ∃ s1, runCalls tbits cfg TYPE_USER s calls = some s1 ∧
      ∀ u, (acceptSet s1 u).card ≤ cfg.maxaccepts := by
  induction calls generalizing s with
  | nil => exact ⟨s, rfl, h⟩
  | cons c calls ih =>
    obtain ⟨s1, he, h1⟩ := apply_cap tbits cfg TYPE_USER s c h
    obtain ⟨s2, he2, h2⟩ := ih s1 h1
    refine ⟨s2, ?_, h2⟩
    unfold runCalls at he2 ⊢
    rw [List.foldlM_cons, he]
    exact he2

theorem apply_noDangling (tbits : Nat) (cfg : Config) (s : World) (e : Event)
    (h : NoDangling s) : NoDangling (Event.apply tbits cfg s e) := by
  obtain ⟨hrec, hmem⟩ := h
  cases e with
  | connect u0 info =>
    unfold Event.apply
    by_cases hin : u0 ∈ s.clientlist
    · simp only [hin, if_true]
      exact ⟨hrec, hmem⟩
    · simp only [hin, if_false]
      constructor
      · intro u hu
        exact List.mem_cons_of_mem _ (hrec u hu)
      · intro u x hx
        exact List.mem_cons_of_mem _ (hmem u x hx)
  | accept user parameters =>
    unfold Event.apply
    by_cases hin : user ∈ s.clientlist
    · obtain ⟨r, s1, out, he, -, h2, h3, -, -, h6, -, -⟩ := Handle_spec cfg s parameters user
      simp only [hin, if_true, he]
      constructor
      · intro u hu
        rw [h2]
        by_cases huu : u = user
        · rw [huu]
          exact hin
        · rw [h3 u huu] at hu
          exact hrec u hu
      · intro u x hx
        rw [h2]
        by_cases huu : u = user
        · rw [huu] at hx
          rcases h6 x hx with hx1 | hx1
          · exact hmem user x hx1
          · exact hx1
        · rw [acceptSet_of_ext_eq s s1 u (h3 u huu)] at hx
          exact hmem u x hx
    · simp only [hin, if_false]
      exact ⟨hrec, hmem⟩
  | message now user dest =>
    unfold Event.apply
    by_cases hin : user ∈ s.clientlist ∧ dest ∈ s.clientlist
    · obtain ⟨r, s1, out, he, -, h2, h3, h4, -⟩ := PreText_spec tbits cfg now s user dest
      simp only [hin, and_self, if_true, he]
      constructor
      · intro u hu
        rw [h2]
        by_cases huu : u = dest
        · rw [huu]
          exact hin.2
        · rw [h3 u huu] at hu
          exact hrec u hu
      · intro u x hx
        rw [h2]
        rw [h4 u] at hx
        exact hmem u x hx
    · simp only [hin, if_false]
      exact ⟨hrec, hmem⟩
  | rename user newnick =>
    unfold Event.apply
    by_cases hin : user ∈ s.clientlist
    · simp only [hin, if_true]
      unfold OnUserPreNick
      by_cases ht : cfg.tracknick = true
      · simp only [ht, Bool.not_true, Bool.false_eq_true, if_false]
        exact ⟨hrec, hmem⟩
      · simp only [ht, Bool.not_false, if_true]
        constructor
        · intro u hu
          show u ∈ (RemoveFromAllAccepts s user).clientlist
          rw [RemoveFromAllAccepts_clientlist]
          apply hrec u
          intro hn
          apply hu
          show (RemoveFromAllAccepts s user).ext u = none
          rw [RemoveFromAllAccepts_ext, hn]
          simp
        · intro u x hx
          show x ∈ (RemoveFromAllAccepts s user).clientlist
          rw [RemoveFromAllAccepts_clientlist]
          have hx1 : x ∈ acceptSet (RemoveFromAllAccepts s user) u := hx
          rw [RemoveFromAllAccepts_acceptSet] at hx1
          by_cases hu : u ∈ s.clientlist
          · simp only [hu, if_true] at hx1
            exact hmem u x (Finset.mem_of_mem_erase hx1)
          · simp only [hu, if_false] at hx1
            exact hmem u x hx1
    · simp only [hin, if_false]
      exact ⟨hrec, hmem⟩
  | disconnect user =>
    unfold Event.apply
    by_cases hin : user ∈ s.clientlist
    · simp only [hin, if_true]
      have hcl : (OnUserQuit s user).clientlist = s.clientlist := by
        unfold OnUserQuit
        rw [RemoveFromAllAccepts_clientlist, RemoveData_clientlist]
      have hset : ∀ u x, x ∈ acceptSet (OnUserQuit s user) u →
          u ≠ user ∧ x ≠ user ∧ x ∈ acceptSet s u := by
        intro u x hx
        unfold OnUserQuit at hx
        rw [RemoveFromAllAccepts_acceptSet, RemoveData_clientlist, RemoveData_acceptSet] at hx
        by_cases huu : u = user
        · simp [huu] at hx
        · simp only [huu, if_false] at hx
          have hx0 : x ∈ acceptSet s u := by
            by_cases hu : u ∈ s.clientlist
            · simp only [hu, if_true] at hx
              exact Finset.mem_of_mem_erase hx
            · simpa [hu] using hx
          have hu : u ∈ s.clientlist := hrec u (ext_ne_none_of_mem s u x hx0)
          simp only [hu, if_true] at hx
          exact ⟨huu, Finset.ne_of_mem_erase hx, hx0⟩
      have hext : ∀ u, (OnUserQuit s user).ext u ≠ none → u ≠ user ∧ s.ext u ≠ none := by
        intro u hu
        unfold OnUserQuit at hu
        rw [RemoveFromAllAccepts_ext, RemoveData_clientlist, RemoveData_ext] at hu
        by_cases huu : u = user
        · simp [huu] at hu
        · refine ⟨huu, ?_⟩
          intro hn
          simp [huu, hn] at hu
      constructor
      · intro u hu
        obtain ⟨h1, h2⟩ := hext u hu
        show u ∈ List.filter (fun u => decide (u ≠ user)) (OnUserQuit s user).clientlist
        rw [hcl, List.mem_filter]
        exact ⟨hrec u h2, decide_eq_true h1⟩
      · intro u x hx
        obtain ⟨-, h2, h3⟩ := hset u x hx
        show x ∈ List.filter (fun u => decide (u ≠ user)) (OnUserQuit s user).clientlist
        rw [hcl, List.mem_filter]
        exact ⟨hmem u x h3, decide_eq_true h2⟩
    · simp only [hin, if_false]
      exact ⟨hrec, hmem⟩

theorem runEvents_noDangling (tbits : Nat) (cfg : Config) (events : List Event) (s : World)
    (h : NoDangling s) : NoDangling (runEvents tbits cfg s events) := by
  induction events generalizing s with
  | nil => exact h
  | cons e events ih => exact ih _ (apply_noDangling tbits cfg s e h)

theorem tokenAct_eq (cfg : Config) (user : UserPtr) (s : World) (tok : String) :
    tokenAct cfg user s tok
      = (Handle.after cfg user s tok, Handle.replies cfg user s tok) := by
  have hcl := token_classify cfg user s tok
  unfold tokenAct Handle.after Handle.replies
  cases hc : classify tok with
  | empty =>
    rw [hc] at hcl
    simp only [hcl]
  | list =>
    rw [hc] at hcl
    by_cases hl : (s.users user).is_local = true
    · rw [if_pos hl] at hcl ⊢
      simp only [hcl]
    · rw [if_neg hl] at hcl ⊢
      simp only [hcl]
      rw [ListAccept_spec]
  | remove nick =>
    rw [hc] at hcl
    cases hf : FindNick s nick with
    | none =>
      simp only [hf] at hcl ⊢
      simp only [hcl]
    | some t =>
      simp only [hf] at hcl ⊢
      simp only [hcl]
  | add nick =>
    rw [hc] at hcl
    cases hf : FindNick s nick with
    | none =>
      simp only [hf] at hcl ⊢
      simp only [hcl]
    | some t =>
      simp only [hf] at hcl ⊢
      obtain ⟨r, s1, o, he, -⟩ := AddAccept_spec cfg s user t false
      rw [he] at hcl
      simp only [hcl, he]

theorem processAll_eq (cfg : Config) (user : UserPtr) (toks : List String) (s : World) :
    processAll (tokenAct cfg user) s toks
      = (toks.foldl (Handle.after cfg user) s, Handle.repliesAll cfg user s toks) := by
  induction toks generalizing s with
  | nil => rfl
  | cons tok toks ih =>
    simp only [processAll, tokenAct_eq, ih, List.foldl_cons, Handle.repliesAll]

/-! ## The ACCEPT command -/

/-- C11: `ListAccept(user)` writes one 281 for each member of the accept set of `user`
(the members without repetition), then one 282 as the last numeric, all to `user`;
with an empty set or no record it writes the 282 only; the world is left as it was, so
no record is created. -/
theorem ListAccept_replies (s : World) (user : UserPtr) :
    (ListAccept s user).1 = s ∧
    (∃ l : List UserPtr, l.Nodup ∧ (∀ x, x ∈ l ↔ x ∈ acceptSet s user) ∧
      (ListAccept s user).2 = l.map (reply281 s user) ++ [reply282 s user]) ∧
    codes (ListAccept s user).2
      = List.replicate (acceptSet s user).card (user, 281) ++ [(user, 282)] ∧
    (∀ x, x ∈ (ListAccept s user).2 → x.target = user) ∧
    (acceptSet s user = ∅ → (ListAccept s user).2 = [reply282 s user]) ∧
    (s.ext user = none → (ListAccept s user).2 = [reply282 s user]) := by
  have hnone : s.ext user = none → acceptSet s user = ∅ := by
    intro h
    simp [acceptSet, h]
  have hempty : acceptSet s user = ∅ → (ListAccept s user).2 = [reply282 s user] := by
    intro h
    rw [ListAccept_spec, h]
    simp
  refine ⟨by rw [ListAccept_spec], ?_, ?_, ListAccept_targets s user, hempty,
    fun h => hempty (hnone h)⟩
  · refine ⟨(acceptSet s user).sort (· ≤ ·), Finset.sort_nodup _ _, ?_, ?_⟩
    · intro x
      exact Finset.mem_sort _
    · rw [ListAccept_spec]
  · rw [ListAccept_spec]
    simp only [codes, List.map_append, List.map_map, List.map_cons, List.map_nil]
    congr 1
    rw [← Finset.length_sort (· ≤ ·)]
    exact List.eq_replicate_iff.mpr ⟨by simp, by
      intro b hb
      simp only [List.mem_map, Function.comp] at hb
      obtain ⟨a, -, ha⟩ := hb
      rw [← ha]
      rfl⟩

/-- C12, at the failing inputs: `alice` is local and accepts `bob`, and her `*` writes
nothing at all; when `alice` is not local (and has no record), her `*` writes 282.
Line 108 skips the list for the local user. -/
theorem Handle_star_skips_local :
    ((worldNamedAccepting true).users 1).is_local = true ∧
    acceptSet (worldNamedAccepting true) 1 = {2} ∧
    ((Handle ⟨16, false, false, 60⟩ (worldNamedAccepting true) ["*"] 1).map
        fun r => (r.1, codes r.2.2)) = some (CmdResult.CMD_SUCCESS, []) ∧
    ((worldNamed false).users 1).is_local = false ∧
    ((Handle ⟨16, false, false, 60⟩ (worldNamed false) ["*"] 1).map
        fun r => (r.1, codes r.2.2)) = some (CmdResult.CMD_SUCCESS, [(1, 282)]) := by
  refine ⟨rfl, by decide, by decide, rfl, by decide⟩

/-- C18: `Handle` on `p ++ q` ends in the world, and writes the numerics, of `Handle`
on `p` followed by `Handle` on `q` from the world that `p` left; all three calls
return, and the result of the whole is the failure result exactly when one of the two
parts gives it.  In each of the three calls every sub-token of every parameter is
acted on in turn (`processAll`), whatever the outcome of the ones before it: the world
and the numerics are those of `AddAccept`, `RemoveAccept`, `ListAccept` and the reply
401 on each sub-token.  So with `maxaccepts = 2`, in `alice`s batch
`nosuch,bob,bob` `carol,alice,-alice` `-bob` the unknown nick (401), the duplicate
(457), the full list (456) and the absent entry (458) are each followed by sub-tokens
that are processed: `bob` and `carol` are added and `bob` is removed at the end. -/
theorem Handle_append (cfg : Config) (s : World) (p q : List String) (user : UserPtr) :
    (∃ r1 s1 o1 r2 s2 o2,
      Handle cfg s p user = some (r1, s1, o1) ∧
      Handle cfg s1 q user = some (r2, s2, o2) ∧
      Handle cfg s (p ++ q) user
        = some (if r1 = CmdResult.CMD_FAILURE ∨ r2 = CmdResult.CMD_FAILURE
              then CmdResult.CMD_FAILURE else CmdResult.CMD_SUCCESS,
            s2, o1 ++ o2) ∧
      (s1, o1) = processAll (tokenAct cfg user) s (Handle.tokens p) ∧
      (s2, o2) = processAll (tokenAct cfg user) s1 (Handle.tokens q) ∧
      (s2, o1 ++ o2) = processAll (tokenAct cfg user) s (Handle.tokens (p ++ q))) ∧
    (Handle.tokens ["nosuch,bob,bob", "carol,alice,-alice", "-bob"]
        = ["nosuch", "bob", "bob", "carol", "alice", "-alice", "-bob"] ∧
      (Handle ⟨2, false, false, 60⟩ (worldNamed true) ["nosuch,bob,bob"] 1).map
          (fun r => (r.1, decide (acceptSet r.2.1 1 = {2}), codes r.2.2))
        = some (CmdResult.CMD_FAILURE, true, [(1, 401), (1, 457)]) ∧
      (Handle ⟨2, false, false, 60⟩ (worldNamed true)
          ["nosuch,bob,bob", "carol,alice,-alice"] 1).map
          (fun r => (r.1, decide (acceptSet r.2.1 1 = {2, 3}), codes r.2.2))
        = some (CmdResult.CMD_FAILURE, true, [(1, 401), (1, 457), (1, 456), (1, 458)]) ∧
      (Handle ⟨2, false, false, 60⟩ (worldNamed true)
          ["nosuch,bob,bob", "carol,alice,-alice", "-bob"] 1).map
          (fun r => (r.1, decide (acceptSet r.2.1 1 = {3}), codes r.2.2))
        = some (CmdResult.CMD_FAILURE, true,
            [(1, 401), (1, 457), (1, 456), (1, 458)])) := by
  have ht : Handle.tokens (p ++ q) = Handle.tokens p ++ Handle.tokens q := by
    simp [Handle.tokens]
  refine ⟨⟨_, _, _, _, _, _, Handle_eq cfg s p user, Handle_eq cfg _ q user, ?_,
    (processAll_eq cfg user _ s).symm, (processAll_eq cfg user _ _).symm, ?_⟩,
    by decide, by decide, by decide, by decide⟩
  · rw [Handle_eq, ht, anyToken_append, repliesAll_append, List.foldl_append]
    cases anyToken (Handle.flag cfg user) cfg user s (Handle.tokens p) <;>
      cases anyToken (Handle.flag cfg user) cfg user
        (List.foldl (Handle.after cfg user) s (Handle.tokens p)) (Handle.tokens q) <;>
      simp
  · rw [processAll_eq, ht, repliesAll_append, List.foldl_append]

/-- C20: `Handle` returns; it leaves the record of every user other than the invoker
as it was (existence, accept set and `lastnotify`), keeps the `lastnotify` of the
invoker (0 for a record it creates), never removes the invoker's record, and writes
every numeric to the invoker. -/
theorem Handle_frame (cfg : Config) (s : World) (parameters : List String)
    (user : UserPtr) :
    ∃ r s1 out, Handle cfg s parameters user = some (r, s1, out) ∧
      (∀ u, u ≠ user → s1.ext u = s.ext u) ∧
      lastnotifyVal s1 user = lastnotifyVal s user ∧
      (∀ d, s.ext user = some d →
        ∃ d1, s1.ext user = some d1 ∧ d1.lastnotify = d.lastnotify) ∧
      (∀ x, x ∈ out → x.target = user) := by
  obtain ⟨r, s1, out, he, -, -, h3, h4, h5, -, -, h8⟩ := Handle_spec cfg s parameters user
  refine ⟨r, s1, out, he, h3, h4, ?_, h8⟩
  intro d hd
  have hne : s1.ext user ≠ none := h5 (by rw [hd]; simp)
  cases h1 : s1.ext user with
  | none => exact absurd h1 hne
  | some d1 =>
    refine ⟨d1, rfl, ?_⟩
    simpa [lastnotifyVal, h1, hd] using h4

/-! ## The notification time -/

/-- C19, as stated, fails when the sum of line 260 overflows: on a 32-bit `time_t`
with `notify_cooldown = 1500000000`, the call at clock 1600000000 stores
`lastnotify = 1600000000`, and `1600000000 + 1500000000` wraps to a negative
`time_t`.  A next call at the same clock writes 717 and 718 again although
`lastnotify` does not change, and a next call at clock 1000000000 writes them and
lowers `lastnotify` to 1000000000. -/
theorem PreText_lastnotify_overflow :
    (fitsTime 32 1600000000 ∧ fitsTime 32 1000000000 ∧ (1500000000 : Nat) < 2 ^ 32) ∧
    (PreText 32 ⟨16, false, false, 1500000000⟩ 1600000000 worldFresh 2 1).map
        (fun a => (a.1, codes a.2.2, lastnotifyOf a.2.1 1))
      = some (1, [(2, 716), (2, 717), (1, 718)], some 1600000000) ∧
    ((PreText 32 ⟨16, false, false, 1500000000⟩ 1600000000 worldFresh 2 1).bind fun a =>
      (PreText 32 ⟨16, false, false, 1500000000⟩ 1600000000 a.2.1 3 1).map fun r =>
        (r.1, codes r.2.2, lastnotifyOf r.2.1 1))
      = some (1, [(3, 716), (3, 717), (1, 718)], some 1600000000) ∧
    ((PreText 32 ⟨16, false, false, 1500000000⟩ 1600000000 worldFresh 2 1).bind fun a =>
      (PreText 32 ⟨16, false, false, 1500000000⟩ 1000000000 a.2.1 3 1).map fun r =>
        (r.1, codes r.2.2, lastnotifyOf r.2.1 1))
      = some (1, [(3, 716), (3, 717), (1, 718)], some 1000000000) := by
  refine ⟨by decide, by decide, by decide, by decide⟩

/-- C19, amended: `PreText(S, R)` returns, at any clock value; the `lastnotify` of `R`
(0 when `R` has no record) changes only if 717 is written to `S` and 718 to `R`; after
a call that writes them it is the clock value; the record of every other user is left
as it was.  When `lastnotify + notify_cooldown` is a value of `time_t` (the sum of
line 260 does not overflow), the `lastnotify` of `R` does not decrease, and it changes
exactly when 717 and 718 are written. -/
theorem PreText_lastnotify (tbits : Nat) (cfg : Config) (now : Int) (s : World)
    (S R : UserPtr) :
    ∃ r s1 out, PreText tbits cfg now s S R = some (r, s1, out) ∧
      (lastnotifyVal s1 R ≠ lastnotifyVal s R →
        ((S, 717) ∈ codes out ∧ (R, 718) ∈ codes out)) ∧
      ((S, 717) ∈ codes out ∧ (R, 718) ∈ codes out → lastnotifyVal s1 R = now) ∧
      (∀ u, u ≠ R → s1.ext u = s.ext u ∧ lastnotifyVal s1 u = lastnotifyVal s u) ∧
      (fitsTime tbits (lastnotifyVal s R + (cfg.notify_cooldown : Int)) →
        lastnotifyVal s R ≤ lastnotifyVal s1 R ∧
        (lastnotifyVal s1 R ≠ lastnotifyVal s R ↔
          ((S, 717) ∈ codes out ∧ (R, 718) ∈ codes out))) := by
  obtain ⟨r, s1, out, he, -, -, h3, -, h5, h6⟩ := PreText_spec tbits cfg now s S R
  have hchg : lastnotifyVal s1 R ≠ lastnotifyVal s R →
      ((S, 717) ∈ codes out ∧ (R, 718) ∈ codes out) := by
    intro hne
    by_contra hno
    exact hne (h6 hno)
  refine ⟨r, s1, out, he, hchg, fun h => (h5 h).1, ?_, ?_⟩
  · intro u hu
    exact ⟨h3 u hu, by simp [lastnotifyVal, h3 u hu]⟩
  · intro hfit
    have hcd : (0 : Int) ≤ (cfg.notify_cooldown : Int) := Int.ofNat_nonneg _
    by_cases hp : (S, 717) ∈ codes out ∧ (R, 718) ∈ codes out
    · obtain ⟨h1, h2⟩ := h5 hp
      rw [timeSum_of_fits tbits _ _ hfit] at h2
      refine ⟨by omega, ?_⟩
      constructor
      · intro _
        exact hp
      · intro _
        omega
    · have h1 := h6 hp
      refine ⟨by omega, ?_⟩
      constructor
      · exact hchg
      · intro h
        exact absurd h hp

/-! ## The result of the ACCEPT command -/

/-- C13, as stated, fails both ways: `alice` adds `bob`, no sub-token fails and `Handle`
returns `CMD_FAILURE`; `alice` adds an unknown nick, the sub-token fails (401) and
`Handle` returns `CMD_SUCCESS`. -/
theorem Handle_result_is_not_failure_of_tokens :
    (anyToken (tokenFails ⟨16, false, false, 60⟩ 1) ⟨16, false, false, 60⟩ 1
        (worldNamed true) (Handle.tokens ["bob"]) = false ∧
      (Handle ⟨16, false, false, 60⟩ (worldNamed true) ["bob"] 1).map
          (fun r => (r.1, codes r.2.2)) = some (CmdResult.CMD_FAILURE, [])) ∧
    (anyToken (tokenFails ⟨16, false, false, 60⟩ 1) ⟨16, false, false, 60⟩ 1
        (worldNamed true) (Handle.tokens ["nosuch"]) = true ∧
      (Handle ⟨16, false, false, 60⟩ (worldNamed true) ["nosuch"] 1).map
          (fun r => (r.1, codes r.2.2)) = some (CmdResult.CMD_SUCCESS, [(1, 401)])) := by
  decide

/-- C13, amended: `Handle` returns, and its result is `CMD_FAILURE` exactly when at
least one addition or removal sub-token applied (the target resolved and, for an
addition, the list was not full and did not hold the target, for a removal, the list
held the target); it is `CMD_SUCCESS` exactly when no sub-token applied. -/
theorem Handle_result_applied (cfg : Config) (s : World) (parameters : List String)
    (user : UserPtr) :
    ∃ r s1 out, Handle cfg s parameters user = some (r, s1, out) ∧
      (r = CmdResult.CMD_FAILURE ↔
        anyToken (fun w tok => additionSucceeds cfg user w tok || removalSucceeds user w tok)
          cfg user s (Handle.tokens parameters) = true) ∧
      (r = CmdResult.CMD_SUCCESS ↔
        anyToken (fun w tok => additionSucceeds cfg user w tok || removalSucceeds user w tok)
          cfg user s (Handle.tokens parameters) = false) := by
  refine ⟨_, _, _, Handle_eq cfg s parameters user, ?_, ?_⟩
  · rw [anyToken_congr (Handle.flag cfg user) _ cfg user
      (fun w tok => (after_spec cfg user w tok).2.2.2.2.2.2.1)]
    cases anyToken (fun w tok => additionSucceeds cfg user w tok || removalSucceeds user w tok)
      cfg user s (Handle.tokens parameters) <;> simp
  · rw [anyToken_congr (Handle.flag cfg user) _ cfg user
      (fun w tok => (after_spec cfg user w tok).2.2.2.2.2.2.1)]
    cases anyToken (fun w tok => additionSucceeds cfg user w tok || removalSucceeds user w tok)
      cfg user s (Handle.tokens parameters) <;> simp

/-- C17: `Handle` returns, and its result is `CMD_FAILURE` exactly when at least one
sub-token changed the accept set of the invoker, and `CMD_SUCCESS` otherwise.  So the
batch `bob`, whose addition succeeds, returns `CMD_FAILURE`, and the batch `-bob`, a
removal that changes nothing (458), returns `CMD_SUCCESS`. -/
theorem Handle_result_changes :
    (∀ (cfg : Config) (s : World) (parameters : List String) (user : UserPtr),
      ∃ r s1 out, Handle cfg s parameters user = some (r, s1, out) ∧
        (r = CmdResult.CMD_FAILURE ↔
          anyToken (changesSet cfg user) cfg user s (Handle.tokens parameters) = true) ∧
        (r = CmdResult.CMD_SUCCESS ↔
          anyToken (changesSet cfg user) cfg user s (Handle.tokens parameters) = false)) ∧
    (anyToken (additionSucceeds ⟨16, false, false, 60⟩ 1) ⟨16, false, false, 60⟩ 1
        (worldNamed true) (Handle.tokens ["bob"]) = true ∧
      (Handle ⟨16, false, false, 60⟩ (worldNamed true) ["bob"] 1).map
          (fun r => (r.1, decide (acceptSet r.2.1 1 = {2}), codes r.2.2))
        = some (CmdResult.CMD_FAILURE, true, [])) ∧
    (Handle ⟨16, false, false, 60⟩ (worldNamed true) ["-bob"] 1).map
        (fun r => (r.1, decide (acceptSet r.2.1 1 = ∅), codes r.2.2))
      = some (CmdResult.CMD_SUCCESS, true, [(1, 458)]) := by
  refine ⟨?_, by decide, by decide⟩
  intro cfg s parameters user
  refine ⟨_, _, _, Handle_eq cfg s parameters user, ?_, ?_⟩
  · rw [anyToken_congr (Handle.flag cfg user) _ cfg user (flag_eq_changesSet cfg user)]
    cases anyToken (changesSet cfg user) cfg user s (Handle.tokens parameters) <;> simp
  · rw [anyToken_congr (Handle.flag cfg user) _ cfg user (flag_eq_changesSet cfg user)]
    cases anyToken (changesSet cfg user) cfg user s (Handle.tokens parameters) <;> simp

/-- C16, as stated, fails for `maxaccepts = 0`: `alice` has no record, her addition of
`bob` fails with 456, no addition succeeds, and she has a record afterwards. -/
theorem Handle_failed_addition_creates_record :
    (worldNamed true).ext 1 = none ∧
    anyToken (additionSucceeds ⟨0, false, false, 60⟩ 1) ⟨0, false, false, 60⟩ 1
      (worldNamed true) (Handle.tokens ["bob"]) = false ∧
    (Handle ⟨0, false, false, 60⟩ (worldNamed true) ["bob"] 1).map
        (fun r => (r.1, (r.2.1.ext 1).isSome, codes r.2.2))
      = some (CmdResult.CMD_SUCCESS, true, [(1, 456)]) := by
  decide

/-- C16, amended: when the invoker has no record, `Handle` returns and, with
`maxaccepts` at least 1, the invoker has a record afterwards only if at least one
addition sub-token succeeded.  For every `maxaccepts`, a sub-token that is not an
addition with a target that resolves (so `*`, `-nick`, an unknown nick) never creates
a record; with `maxaccepts` at least 1 no failed addition creates one. -/
theorem Handle_creates_record (cfg : Config) (s : World) (parameters : List String)
    (user : UserPtr) (hnone : s.ext user = none) :
    ∃ r s1 out, Handle cfg s parameters user = some (r, s1, out) ∧
      (1 ≤ cfg.maxaccepts → s1.ext user ≠ none →
        anyToken (additionSucceeds cfg user) cfg user s (Handle.tokens parameters) = true) ∧
      (∀ w tok, w.ext user = none →
        (∀ nick t, classify tok = TokKind.add nick → FindNick w nick ≠ some t) →
        (Handle.after cfg user w tok).ext user = none) ∧
      (1 ≤ cfg.maxaccepts → ∀ w tok, w.ext user = none →
        additionSucceeds cfg user w tok = false →
        (Handle.after cfg user w tok).ext user = none) := by
  refine ⟨_, _, _, Handle_eq cfg s parameters user, ?_, ?_, ?_⟩
  · intro hmax hrec
    exact record_needs_addition cfg user hmax _ s hnone hrec
  · intro w tok hw hadd
    exact after_of_not_add cfg user w tok hadd hw
  · intro hmax w tok hw hfail
    by_contra hne
    rcases (after_spec cfg user w tok).2.2.2.2.2.2.2.2.2.2 hw hne with h | h
    · rw [hfail] at h
      exact absurd h (by decide)
    · omega

/-- The user `alice` has no record and adds `bob`, with `maxaccepts = 16`. -/
theorem Handle_creates_record_witness :
    (worldNamed true).ext 1 = none ∧
    ∃ r s1 out, Handle ⟨16, false, false, 60⟩ (worldNamed true) ["bob"] 1
        = some (r, s1, out) ∧
      (1 ≤ 16 → s1.ext 1 ≠ none →
        anyToken (additionSucceeds ⟨16, false, false, 60⟩ 1) ⟨16, false, false, 60⟩ 1
          (worldNamed true) (Handle.tokens ["bob"]) = true) ∧
      (∀ w tok, w.ext 1 = none →
        (∀ nick t, classify tok = TokKind.add nick → FindNick w nick ≠ some t) →
        (Handle.after ⟨16, false, false, 60⟩ 1 w tok).ext 1 = none) ∧
      (1 ≤ 16 → ∀ w tok, w.ext 1 = none →
        additionSucceeds ⟨16, false, false, 60⟩ 1 w tok = false →
        (Handle.after ⟨16, false, false, 60⟩ 1 w tok).ext 1 = none) :=
  ⟨rfl, Handle_creates_record ⟨16, false, false, 60⟩ (worldNamed true) ["bob"] 1 rfl⟩

/-! ## Invariants of the accept sets -/

/-- C14: from a world in which no user has a record, every sequence of `Handle`,
`PreText`, `OnUserPreNick`, `OnUserQuit` and `OnCleanup` calls (any arguments, one
configuration, any width of `time_t`) runs to a world in which every accept set has at most `maxaccepts`
members. -/
theorem calls_keep_maxaccepts (tbits : Nat) (cfg : Config) (TYPE_USER : Int) (s0 : World)
    (calls : List Call) (h0 : ∀ u, s0.ext u = none) :
    ∃ s, runCalls tbits cfg TYPE_USER s0 calls = some s ∧
      ∀ u, (acceptSet s u).card ≤ cfg.maxaccepts := by
  apply runCalls_cap
  intro u
  simp [acceptSet, h0 u]

/-- With `maxaccepts = 1` and `tracknick` on, `alice` adds `bob` and `carol`, is
messaged by `bob`, `bob` changes nick and `carol` quits: `alice` accepts `bob` only. -/
theorem calls_keep_maxaccepts_witness :
    (∀ u, (worldNamed true).ext u = none) ∧
    (runCalls 64 ⟨1, false, true, 60⟩ 1 (worldNamed true)
        [Call.handle ["bob,carol"] 1, Call.preText 100 2 1, Call.preNick 2 "bobby",
         Call.quit 3, Call.cleanup 1 3]).map (fun s => acceptSet s 1) = some {2} ∧
    ∃ s, runCalls 64 ⟨1, false, true, 60⟩ 1 (worldNamed true)
        [Call.handle ["bob,carol"] 1, Call.preText 100 2 1, Call.preNick 2 "bobby",
         Call.quit 3, Call.cleanup 1 3] = some s ∧
      ∀ u, (acceptSet s u).card ≤ 1 :=
  ⟨fun _ => rfl, by decide,
    calls_keep_maxaccepts 64 ⟨1, false, true, 60⟩ 1 (worldNamed true)
      [Call.handle ["bob,carol"] 1, Call.preText 100 2 1, Call.preNick 2 "bobby",
       Call.quit 3, Call.cleanup 1 3] (fun _ => rfl)⟩

/-- C15: from a world in which no user has a record, after every sequence of events
(connect, ACCEPT command, message, rename, disconnect) every member of an accept set is
a client, and so is the owner of the set: no accept set refers to a disconnected
user. -/
theorem events_no_dangling (tbits : Nat) (cfg : Config) (s0 : World) (events : List Event)
    (h0 : ∀ u, s0.ext u = none) (u x : UserPtr)
    (hx : x ∈ acceptSet (runEvents tbits cfg s0 events) u) :
    x ∈ (runEvents tbits cfg s0 events).clientlist ∧
      u ∈ (runEvents tbits cfg s0 events).clientlist := by
  have hinit : NoDangling s0 := by
    constructor
    · intro v hv
      exact absurd (h0 v) hv
    · intro v y hy
      simp [acceptSet, h0 v] at hy
  obtain ⟨hrec, hmem⟩ := runEvents_noDangling tbits cfg events s0 hinit
  exact ⟨hmem u x hx, hrec u (ext_ne_none_of_mem _ u x hx)⟩

/-- With `tracknick` on, `dave` connects as user 4, `alice` accepts `bob`, `carol` and
`dave`, `carol` changes nick and `bob` disconnects: `alice` accepts `carol` and `dave`
only, and they are clients. -/
theorem events_no_dangling_witness :
    (∀ u, (worldNamed true).ext u = none) ∧
    acceptSet (runEvents 64 ⟨16, false, true, 60⟩ (worldNamed true)
      [Event.connect 4 userDave, Event.accept 1 ["bob,carol", "+dave"],
       Event.message 100 2 1, Event.rename 3 "caro", Event.disconnect 2]) 1 = {3, 4} ∧
    (runEvents 64 ⟨16, false, true, 60⟩ (worldNamed true)
      [Event.connect 4 userDave, Event.accept 1 ["bob,carol", "+dave"],
       Event.message 100 2 1, Event.rename 3 "caro", Event.disconnect 2]).clientlist
      = [4, 1, 3] ∧
    (3 ∈ (runEvents 64 ⟨16, false, true, 60⟩ (worldNamed true)
      [Event.connect 4 userDave, Event.accept 1 ["bob,carol", "+dave"],
       Event.message 100 2 1, Event.rename 3 "caro", Event.disconnect 2]).clientlist ∧
     1 ∈ (runEvents 64 ⟨16, false, true, 60⟩ (worldNamed true)
      [Event.connect 4 userDave, Event.accept 1 ["bob,carol", "+dave"],
       Event.message 100 2 1, Event.rename 3 "caro", Event.disconnect 2]).clientlist) :=
  ⟨fun _ => rfl, by decide, by decide,
    events_no_dangling 64 ⟨16, false, true, 60⟩ (worldNamed true)
      [Event.connect 4 userDave, Event.accept 1 ["bob,carol", "+dave"],
       Event.message 100 2 1, Event.rename 3 "caro", Event.disconnect 2]
      (fun _ => rfl) 1 3 (by decide)⟩

end CallerID
